import Mathlib

/-!
Shallow embedding of the incognita-socket-server session core
(src/models.rs, src/response.rs, src/request.rs, src/server.rs).

Rust `u32` identifiers are modelled as `Nat` with explicit `% 2^32`
where wrapping arithmetic occurs.  `HashMap<u32, T>` is modelled as an
association list with first-match lookup; insertion conses a fresh
entry, removal erases all entries with the key, and in-place mutation
through a `&mut` reference is modelled by replacing the first entry
with the key.  Fallible Rust code (`Result<T, Error>`) is modelled
with `Except`; state mutated in place before an error is raised is
threaded explicitly, so partial mutations on error paths are
preserved exactly as in the source.
-/

deriving instance DecidableEq for Except

namespace Incognita

/-- 2^32, the size of the `u32` identifier space. -/
def U32 : Nat := 2 ^ 32

abbrev UserID := Nat
abbrev RoomID := Nat

/-- models.rs `UserState`. -/
inductive UserState where
  | RoomOwner (r : RoomID)
  | InRoom (r : RoomID)
  | RequestedJoin (r : RoomID)
  | Nowhere
deriving DecidableEq

/-- models.rs `User`. -/
structure User where
  id : UserID
  state : UserState
deriving DecidableEq

/-- models.rs `Room`.  `data: Arc<str>` is modelled as `String`. -/
structure Room where
  id : RoomID
  owner_id : UserID
  data : String
  members : List UserID
  join_requests : List UserID
deriving DecidableEq

/-- response.rs `Error`. -/
inductive Error where
  | ServerFull
  | InvalidRequest
  | AlreadyInARoom
  | AlreadyRequestedJoin
  | NotRoomOwner
  | IsRoomOwner
  | NotInThatRoom
  | NoSuchUser
  | NoSuchRoom
  | NoSuchJoinRequest
deriving DecidableEq

/-- response.rs `Message`. -/
inductive Message where
  | Welcome (u : UserID)
  | Pong (n : Nat)
  | ListRooms (rooms : List (RoomID × String))
  | RoomCreated (r : RoomID)
  | RoomJoined (r : RoomID)
  | RoomClosed (r : RoomID)
  | RoomRejected (r : RoomID) (reason : String)
  | JoinRequested (r : RoomID) (u : UserID) (msg : String)
  | PlayerLeft (r : RoomID) (u : UserID)
  | ReceivedFrom (r : RoomID) (u : UserID) (payload : String)
  | ReceivedBroadcast (r : RoomID) (payload : String)
  | ReceivedIndividual (r : RoomID) (payload : String)
  | Error (e : Error)
deriving DecidableEq

/-- response.rs `Response`: a return-to-sender message plus fan-out sends. -/
structure Response where
  returns : Option Message
  sends : List (UserID × Message)
deriving DecidableEq

def Response.empty : Response := ⟨none, []⟩

/-- response.rs `Response::returns` (constructor function). -/
def Response.returnsMessage (m : Message) : Response := ⟨some m, []⟩

/-- response.rs `Response::error`. -/
def Response.error (e : Error) : Response := ⟨some (Message.Error e), []⟩

/-- response.rs `Response::sends`. -/
def Response.sendsTo (u : UserID) (m : Message) : Response := ⟨none, [(u, m)]⟩

/-- response.rs `Response::sends_all`. -/
def Response.sends_all (l : List (UserID × Message)) : Response := ⟨none, l⟩

/-- response.rs `impl From<Result> for Response`: `r.unwrap_or_else(Response::error)`. -/
def Response.ofResult : Except Error Response → Response
  | .ok r => r
  | .error e => Response.error e

/-- request.rs `Request`. -/
inductive Request where
  | ListRooms
  | Ping (n : Nat)
  | CreateRoom (data : String)
  | SetOwner (r : RoomID) (u : UserID)
  | AskJoinRoom (r : RoomID) (msg : String)
  | AcceptJoinRoom (r : RoomID) (u : UserID)
  | RejectJoinRoom (r : RoomID) (u : UserID) (reason : String)
  | LeaveRoom (r : RoomID)
  | Send (r : RoomID) (payload : String)
  | SendTo (r : RoomID) (u : UserID) (payload : String)
  | EchoFrom (r : RoomID) (u : UserID) (payload : String)
  | Quit
deriving DecidableEq

/-! ### Association-list model of `HashMap<u32, T>` -/

abbrev HMap (α : Type) := List (Nat × α)

/-- `HashMap::get`: first entry with the key. -/
def mlookup {α : Type} : HMap α → Nat → Option α
  | [], _ => none
  | (k', v) :: rest, k => if k' = k then some v else mlookup rest k

/-- `HashMap::insert` of a key known to be absent. -/
def minsert {α : Type} (m : HMap α) (k : Nat) (v : α) : HMap α := (k, v) :: m

/-- `HashMap::remove`. -/
def merase {α : Type} : HMap α → Nat → HMap α
  | [], _ => []
  | (k', v) :: rest, k => if k' = k then merase rest k else (k', v) :: merase rest k

/-- Writing through a `&mut` reference obtained from `get_mut`:
replace the value of the first entry with the key. -/
def mupdate {α : Type} : HMap α → Nat → α → HMap α
  | [], _, _ => []
  | (k', v') :: rest, k, v =>
    if k' = k then (k, v) :: rest else (k', v') :: mupdate rest k v

/-! ### Vec helpers -/

/-- models.rs `index_of`: position of the first occurrence. -/
def index_of (l : List Nat) (v : Nat) : Option Nat :=
  match l with
  | [] => none
  | x :: xs => if x = v then some 0 else (index_of xs v).map (· + 1)

/-- `Vec::swap_remove(i)`: replace element `i` with the last element and
pop the last element. -/
def swapRemove {α : Type} (l : List α) (i : Nat) : List α :=
  match l.getLast? with
  | none => l
  | some last => (l.set i last).dropLast

/-! ### User and Room methods (models.rs) -/

/-- models.rs `User::expect_nowhere`. -/
def User.expect_nowhere (u : User) : Except Error Unit :=
  match u.state with
  | .RoomOwner _ => .error .AlreadyInARoom
  | .InRoom _ => .error .AlreadyInARoom
  | .RequestedJoin _ => .error .AlreadyRequestedJoin
  | .Nowhere => .ok ()

/-- models.rs `Room::new`. -/
def Room.new (id : RoomID) (owner_id : UserID) (data : String) : Room :=
  ⟨id, owner_id, data, [], []⟩

/-- models.rs `User::try_create_room`: returns the mutated user and the new room. -/
def User.try_create_room (u : User) (room_id : RoomID) (data : String) :
    Except Error (User × Room) :=
  match u.expect_nowhere with
  | .error e => .error e
  | .ok _ => .ok ({ u with state := .RoomOwner room_id }, Room.new room_id u.id data)

/-- models.rs `User::try_join_room`: returns the mutated user and room. -/
def User.try_join_room (u : User) (room : Room) : Except Error (User × Room) :=
  match u.expect_nowhere with
  | .error e => .error e
  | .ok _ =>
    .ok ({ u with state := .RequestedJoin room.id },
         { room with join_requests := room.join_requests ++ [u.id] })

/-- models.rs `Room::expect_owner`. -/
def Room.expect_owner (room : Room) (user_id : UserID) : Except Error Unit :=
  if room.owner_id = user_id then .ok () else .error .NotRoomOwner

/-- models.rs `Room::expect_member`. -/
def Room.expect_member (room : Room) (user_id : UserID) : Except Error Unit :=
  if user_id ∈ room.members then .ok () else .error .NoSuchUser

/-- models.rs `Room::cancel_join_request`: returns the mutated room and user. -/
def Room.cancel_join_request (room : Room) (u : User) : Except Error (Room × User) :=
  match index_of room.join_requests u.id with
  | none => .error .NoSuchJoinRequest
  | some i =>
    .ok ({ room with join_requests := swapRemove room.join_requests i },
         { u with state := .Nowhere })

/-- models.rs `Room::accept_join_request`. -/
def Room.accept_join_request (room : Room) (u : User) : Except Error (Room × User) :=
  match room.cancel_join_request u with
  | .error e => .error e
  | .ok (room', u') =>
    .ok ({ room' with members := room'.members ++ [u.id] },
         { u' with state := .InRoom room.id })

/-- models.rs `Room::remove_user`. -/
def Room.remove_user (room : Room) (user_id : UserID) : Except Error Room :=
  if user_id = room.owner_id then .error .IsRoomOwner
  else
    match index_of room.members user_id with
    | none => .error .NoSuchUser
    | some i => .ok { room with members := swapRemove room.members i }

/-- models.rs `User::leave_room`.  Returns the (possibly partially) mutated
user and room together with the result; in the source the mutation
`self.state = Nowhere` in the `InRoom` branch persists even when the
subsequent `room.remove_user` fails. -/
def User.leave_room (u : User) (room : Room) : User × Room × Except Error Unit :=
  match u.state with
  | .RoomOwner _ => (u, room, .error .IsRoomOwner)
  | .InRoom room_id =>
    if room_id = room.id then
      let u' : User := { u with state := .Nowhere }
      match room.remove_user u.id with
      | .ok room' => (u', room', .ok ())
      | .error e => (u', room, .error e)
    else (u, room, .error .NotInThatRoom)
  | .RequestedJoin room_id =>
    if room_id = room.id then
      match room.cancel_join_request u with
      | .ok (room', u') => (u', room', .ok ())
      | .error e => (u, room, .error e)
    else (u, room, .error .NotInThatRoom)
  | .Nowhere => (u, room, .error .NotInThatRoom)

/-! ### The server (server.rs) -/

/-- server.rs `Server`. -/
structure Server where
  max_connections : Nat
  last_user_id : Nat
  users : HMap User
  last_room_id : Nat
  rooms : HMap Room
deriving DecidableEq

/-- server.rs `Server::new` (with `Default`). -/
def Server.new (max_connections : Nat) : Server := ⟨max_connections, 0, [], 0, []⟩

/-- The loop body of server.rs `next_id`, with explicit fuel.  The Rust
loop diverges when every `u32` is occupied; `none` models divergence. -/
def nextIdGo (occupied : Nat → Bool) : Nat → Nat → Option Nat
  | 0, _ => none
  | fuel + 1, id =>
    let c := (id + 1) % U32
    if occupied c then nextIdGo occupied fuel c else some c

/-- server.rs `next_id`: scan from `last_id + 1` with wrapping 32-bit
increment, skipping occupied ids.  Fuel `U32` covers every candidate. -/
def next_id {α : Type} (last_id : Nat) (m : HMap α) : Option Nat :=
  nextIdGo (fun k => (mlookup m k).isSome) U32 last_id

/-- The loop in server.rs `Server::close_room` over `members ∪ join_requests`:
set each user's state to `Nowhere`, collecting one `RoomClosed` message per
user.  On a missing user the loop stops with `NoSuchUser`, keeping the
mutations already done. -/
def closeLoop (room_id : RoomID) :
    Server → List UserID → Server × Except Error (List (UserID × Message))
  | s, [] => (s, .ok [])
  | s, u :: rest =>
    match mlookup s.users u with
    | none => (s, .error .NoSuchUser)
    | some usr =>
      let s' := { s with users := mupdate s.users u { usr with state := .Nowhere } }
      match closeLoop room_id s' rest with
      | (s'', .ok msgs) => (s'', .ok ((u, Message.RoomClosed room_id) :: msgs))
      | (s'', .error e) => (s'', .error e)

/-- server.rs `Server::close_room`. -/
def Server.close_room (s : Server) (room_id : RoomID) : Server × Except Error Response :=
  match mlookup s.rooms room_id with
  | none => (s, .error .NoSuchRoom)
  | some room =>
    let s1 : Server := { s with rooms := merase s.rooms room_id }
    let s2 : Server :=
      match mlookup s1.users room.owner_id with
      | some owner =>
        { s1 with users := mupdate s1.users room.owner_id { owner with state := .Nowhere } }
      | none => s1
    match closeLoop room_id s2 (room.members ++ room.join_requests) with
    | (s3, .ok msgs) => (s3, .ok (Response.sends_all msgs))
    | (s3, .error e) => (s3, .error e)

/-- server.rs `Server::add_user`.  The outer `none` models divergence of
`next_id` when every id is occupied. -/
def Server.add_user (s : Server) : Option (Server × Option UserID) :=
  if s.users.length ≥ s.max_connections then some (s, none)
  else
    match next_id s.last_user_id s.users with
    | none => none
    | some user_id =>
      some ({ s with users := minsert s.users user_id ⟨user_id, .Nowhere⟩,
                     last_user_id := user_id },
            some user_id)

/-- server.rs `Server::remove_user`.  The user record is removed before the
state is inspected, so on the error paths the removal persists. -/
def Server.remove_user (s : Server) (user_id : UserID) : Server × Except Error Response :=
  match mlookup s.users user_id with
  | none => (s, .error .NoSuchUser)
  | some user =>
    let s1 : Server := { s with users := merase s.users user_id }
    match user.state with
    | .RoomOwner room_id => s1.close_room room_id
    | .InRoom room_id =>
      match mlookup s1.rooms room_id with
      | none => (s1, .error .NoSuchRoom)
      | some room =>
        match room.remove_user user_id with
        | .error e => (s1, .error e)
        | .ok room' =>
          ({ s1 with rooms := mupdate s1.rooms room_id room' },
           .ok (Response.sendsTo room.owner_id (.PlayerLeft room_id user_id)))
    | .RequestedJoin room_id =>
      match mlookup s1.rooms room_id with
      | none => (s1, .error .NoSuchRoom)
      | some room =>
        match room.cancel_join_request user with
        | .error e => (s1, .error e)
        | .ok (room', _) =>
          ({ s1 with rooms := mupdate s1.rooms room_id room' },
           .ok (Response.sendsTo room.owner_id (.PlayerLeft room_id user_id)))
    | .Nowhere => (s1, .ok Response.empty)

/-- server.rs `Server::list_rooms`. -/
def Server.list_rooms (s : Server) : Response :=
  Response.returnsMessage (.ListRooms (s.rooms.map (fun p => (p.2.id, p.2.data))))

/-- server.rs `Server::create_room`.  `none` models divergence of `next_id`. -/
def Server.create_room (s : Server) (user_id : UserID) (data : String) :
    Option (Server × Except Error Response) :=
  match next_id s.last_room_id s.rooms with
  | none => none
  | some room_id =>
    match mlookup s.users user_id with
    | none => some (s, .error .NoSuchUser)
    | some user =>
      match user.try_create_room room_id data with
      | .error e => some (s, .error e)
      | .ok (user', room) =>
        some ({ s with users := mupdate s.users user_id user',
                       rooms := minsert s.rooms room_id room,
                       last_room_id := room_id },
              .ok (Response.returnsMessage (.RoomCreated room_id)))

/-- server.rs `Server::ask_join`. -/
def Server.ask_join (s : Server) (user_id : UserID) (room_id : RoomID) (msg : String) :
    Server × Except Error Response :=
  match mlookup s.users user_id with
  | none => (s, .error .NoSuchUser)
  | some user =>
    match mlookup s.rooms room_id with
    | none => (s, .error .NoSuchRoom)
    | some room =>
      match user.try_join_room room with
      | .error e => (s, .error e)
      | .ok (user', room') =>
        ({ s with users := mupdate s.users user_id user',
                  rooms := mupdate s.rooms room_id room' },
         .ok (Response.sendsTo room'.owner_id (.JoinRequested room_id user.id msg)))

/-- server.rs `Server::accept_join`. -/
def Server.accept_join (s : Server) (user_id : UserID) (room_id : RoomID)
    (other_id : UserID) : Server × Except Error Response :=
  match mlookup s.users other_id with
  | none => (s, .error .NoSuchUser)
  | some other =>
    match mlookup s.rooms room_id with
    | none => (s, .error .NoSuchRoom)
    | some room =>
      match room.expect_owner user_id with
      | .error e => (s, .error e)
      | .ok _ =>
        match room.accept_join_request other with
        | .error e => (s, .error e)
        | .ok (room', other') =>
          ({ s with users := mupdate s.users other_id other',
                    rooms := mupdate s.rooms room_id room' },
           .ok (Response.sendsTo other_id (.RoomJoined room_id)))

/-- server.rs `Server::reject_join`. -/
def Server.reject_join (s : Server) (user_id : UserID) (room_id : RoomID)
    (other_id : UserID) (reason : String) : Server × Except Error Response :=
  match mlookup s.users other_id with
  | none => (s, .error .NoSuchUser)
  | some other =>
    match mlookup s.rooms room_id with
    | none => (s, .error .NoSuchRoom)
    | some room =>
      match room.expect_owner user_id with
      | .error e => (s, .error e)
      | .ok _ =>
        match room.cancel_join_request other with
        | .error e => (s, .error e)
        | .ok (room', other') =>
          ({ s with users := mupdate s.users other_id other',
                    rooms := mupdate s.rooms room_id room' },
           .ok (Response.sendsTo other_id (.RoomRejected room_id reason)))

/-- server.rs `Server::leave_room`.  The possibly mutated user and room are
written back also on error paths (the Rust mutation is in place). -/
def Server.leave_room (s : Server) (user_id : UserID) (room_id : RoomID) :
    Server × Except Error Response :=
  match mlookup s.users user_id with
  | none => (s, .error .NoSuchUser)
  | some user =>
    match mlookup s.rooms room_id with
    | none => (s, .error .NoSuchRoom)
    | some room =>
      if room.owner_id = user.id then s.close_room room_id
      else
        let (user', room', res) := user.leave_room room
        let s' : Server := { s with users := mupdate s.users user_id user',
                                    rooms := mupdate s.rooms room_id room' }
        match res with
        | .ok _ =>
          (s', .ok (Response.sendsTo room'.owner_id (.PlayerLeft room_id user.id)))
        | .error e => (s', .error e)

/-- server.rs `Server::send` (reads only). -/
def Server.send (s : Server) (from_user_id : UserID) (room_id : RoomID)
    (payload : String) : Except Error Response :=
  match mlookup s.rooms room_id with
  | none => .error .NoSuchRoom
  | some room =>
    if from_user_id = room.owner_id then
      .ok (Response.sends_all
        (room.members.map (fun u => (u, Message.ReceivedBroadcast room_id payload))))
    else
      .ok (Response.sendsTo room.owner_id (.ReceivedFrom room_id from_user_id payload))

/-- server.rs `Server::send_to` (reads only). -/
def Server.send_to (s : Server) (from_user_id : UserID) (room_id : RoomID)
    (to_user_id : UserID) (payload : String) : Except Error Response :=
  match mlookup s.rooms room_id with
  | none => .error .NoSuchRoom
  | some room =>
    match room.expect_owner from_user_id with
    | .error e => .error e
    | .ok _ =>
      match room.expect_member to_user_id with
      | .error e => .error e
      | .ok _ => .ok (Response.sendsTo to_user_id (.ReceivedIndividual room_id payload))

/-- server.rs `Server::echo_from` (reads only). -/
def Server.echo_from (s : Server) (user_id : UserID) (room_id : RoomID)
    (from_user_id : UserID) (payload : String) : Except Error Response :=
  match mlookup s.rooms room_id with
  | none => .error .NoSuchRoom
  | some room =>
    match room.expect_owner user_id with
    | .error e => .error e
    | .ok _ =>
      match room.expect_member from_user_id with
      | .error e => .error e
      | .ok _ =>
        .ok (Response.sends_all
          ((room.members.filter (fun u => u ≠ from_user_id)).map
            (fun u => (u, Message.ReceivedBroadcast room_id payload))))

/-- server.rs `Server::handle_request`.  The source's `match request` has no
arm for `Request::Ping` or `Request::SetOwner`; those fall-through cases are
modelled as `none` (no defined behaviour), as is divergence of the room-id
allocator inside `CreateRoom`. -/
def Server.handle_request (s : Server) (user_id : UserID) (request : Request) :
    Option (Server × Response) :=
  match request with
  | .ListRooms => some (s, s.list_rooms)
  | .CreateRoom data =>
    (s.create_room user_id data).map (fun p => (p.1, Response.ofResult p.2))
  | .AskJoinRoom room_id msg =>
    let p := s.ask_join user_id room_id msg
    some (p.1, Response.ofResult p.2)
  | .AcceptJoinRoom room_id other_id =>
    let p := s.accept_join user_id room_id other_id
    some (p.1, Response.ofResult p.2)
  | .RejectJoinRoom room_id other_id reason =>
    let p := s.reject_join user_id room_id other_id reason
    some (p.1, Response.ofResult p.2)
  | .LeaveRoom room_id =>
    let p := s.leave_room user_id room_id
    some (p.1, Response.ofResult p.2)
  | .Send room_id payload => some (s, Response.ofResult (s.send user_id room_id payload))
  | .SendTo room_id other_id payload =>
    some (s, Response.ofResult (s.send_to user_id room_id other_id payload))
  | .EchoFrom room_id other_id payload =>
    some (s, Response.ofResult (s.echo_from user_id room_id other_id payload))
  | .Quit => some (s, Response.empty)
  | .Ping _ => none
  | .SetOwner _ _ => none

/-! ### Reachability: states produced by `add_user`, `remove_user`,
`handle_request` from the initial state. -/

/-- One operation of the server's public interface, where defined. -/
inductive Step : Server → Server → Prop where
  | add (s s' : Server) (r : Option UserID) :
      s.add_user = some (s', r) → Step s s'
  | remove (s : Server) (u : UserID) : Step s (s.remove_user u).1
  | handle (s s' : Server) (u : UserID) (req : Request) (resp : Response) :
      s.handle_request u req = some (s', resp) → Step s s'

/-- Server states reachable from some initial state. -/
inductive Reachable : Server → Prop where
  | init (max_connections : Nat) : Reachable (Server.new max_connections)
  | step {s s' : Server} : Reachable s → Step s s' → Reachable s'

/-! ### Lemmas about the map model -/

theorem mlookup_minsert {α : Type} (m : HMap α) (k k' : Nat) (v : α) :
    mlookup (minsert m k v) k' = if k = k' then some v else mlookup m k' := rfl

theorem mlookup_merase {α : Type} (m : HMap α) (k k' : Nat) :
    mlookup (merase m k) k' = if k = k' then none else mlookup m k' := by
  induction m with
  | nil => simp [merase, mlookup]
  | cons p rest ih =>
    obtain ⟨k'', v⟩ := p
    by_cases h1 : k'' = k
    · subst h1
      by_cases h2 : k'' = k'
      · subst h2; simp [merase, mlookup, ih]
      · simp [merase, mlookup, h2, ih]
    · by_cases h2 : k'' = k'
      · subst h2
        have h1' : k ≠ k'' := fun e => h1 e.symm
        simp [merase, mlookup, h1, h1']
      · simp [merase, mlookup, h1, h2, ih]

theorem mlookup_mupdate_ne {α : Type} (m : HMap α) {k k' : Nat} (v : α) (h : k ≠ k') :
    mlookup (mupdate m k v) k' = mlookup m k' := by
  induction m with
  | nil => simp [mupdate]
  | cons p rest ih =>
    obtain ⟨k'', v''⟩ := p
    by_cases h1 : k'' = k
    · subst h1; simp [mupdate, mlookup, h]
    · simp [mupdate, mlookup, h1, ih]

theorem mlookup_mupdate_self {α : Type} (m : HMap α) {k : Nat} {w : α} (v : α)
    (h : mlookup m k = some w) : mlookup (mupdate m k v) k = some v := by
  induction m with
  | nil => simp [mlookup] at h
  | cons p rest ih =>
    obtain ⟨k'', v''⟩ := p
    by_cases h1 : k'' = k
    · subst h1; simp [mupdate, mlookup]
    · simp [mlookup, h1] at h
      simp [mupdate, mlookup, h1, ih h]

theorem mupdate_none {α : Type} (m : HMap α) {k : Nat} (v : α)
    (h : mlookup m k = none) : mupdate m k v = m := by
  induction m with
  | nil => rfl
  | cons p rest ih =>
    obtain ⟨k'', v''⟩ := p
    by_cases h1 : k'' = k
    · subst h1; simp [mlookup] at h
    · simp [mlookup, h1] at h
      simp [mupdate, h1, ih h]

theorem mupdate_self {α : Type} (m : HMap α) {k : Nat} {v : α}
    (h : mlookup m k = some v) : mupdate m k v = m := by
  induction m with
  | nil => rfl
  | cons p rest ih =>
    obtain ⟨k'', v''⟩ := p
    by_cases h1 : k'' = k
    · subst h1
      simp [mlookup] at h
      simp [mupdate, h]
    · simp [mlookup, h1] at h
      simp [mupdate, h1, ih h]

theorem keys_mupdate {α : Type} (m : HMap α) (k : Nat) (v : α) :
    (mupdate m k v).map Prod.fst = m.map Prod.fst := by
  induction m with
  | nil => rfl
  | cons p rest ih =>
    obtain ⟨k'', v''⟩ := p
    by_cases h1 : k'' = k
    · subst h1; simp [mupdate]
    · simp [mupdate, h1, ih]

theorem length_mupdate {α : Type} (m : HMap α) (k : Nat) (v : α) :
    (mupdate m k v).length = m.length := by
  have := congrArg List.length (keys_mupdate m k v)
  simpa using this

theorem keys_merase {α : Type} (m : HMap α) (k : Nat) :
    (merase m k).map Prod.fst = (m.map Prod.fst).filter (fun x => x ≠ k) := by
  induction m with
  | nil => rfl
  | cons p rest ih =>
    obtain ⟨k'', v''⟩ := p
    by_cases h1 : k'' = k
    · subst h1; simp [merase, ih]
    · simp [merase, h1, ih, List.filter_cons]

theorem nodup_keys_merase {α : Type} (m : HMap α) (k : Nat)
    (h : (m.map Prod.fst).Nodup) : ((merase m k).map Prod.fst).Nodup := by
  rw [keys_merase]; exact h.filter _

theorem nodup_keys_mupdate {α : Type} (m : HMap α) (k : Nat) (v : α)
    (h : (m.map Prod.fst).Nodup) : ((mupdate m k v).map Prod.fst).Nodup := by
  rw [keys_mupdate]; exact h

theorem mlookup_eq_none_iff {α : Type} (m : HMap α) (k : Nat) :
    mlookup m k = none ↔ k ∉ m.map Prod.fst := by
  induction m with
  | nil => simp [mlookup]
  | cons p rest ih =>
    obtain ⟨k'', v''⟩ := p
    by_cases h1 : k'' = k
    · subst h1; simp [mlookup]
    · simp only [mlookup, if_neg h1, List.map_cons, List.mem_cons, ih]
      constructor
      · intro hnm
        rintro (he | hm)
        · exact h1 he.symm
        · exact hnm hm
      · intro hnm hm
        exact hnm (Or.inr hm)

theorem mem_of_mlookup {α : Type} {m : HMap α} {k : Nat} {v : α}
    (h : mlookup m k = some v) : (k, v) ∈ m := by
  induction m with
  | nil => simp [mlookup] at h
  | cons p rest ih =>
    obtain ⟨k'', v''⟩ := p
    by_cases h1 : k'' = k
    · subst h1
      simp [mlookup] at h
      subst h; exact List.mem_cons_self _ _
    · simp [mlookup, h1] at h
      exact List.mem_cons_of_mem _ (ih h)

theorem mlookup_isSome_iff {α : Type} (m : HMap α) (k : Nat) :
    (mlookup m k).isSome = true ↔ k ∈ m.map Prod.fst := by
  cases hm : mlookup m k with
  | none =>
    simp only [Option.isSome_none, Bool.false_eq_true, false_iff]
    exact (mlookup_eq_none_iff m k).mp hm
  | some v =>
    simp only [Option.isSome_some, true_iff]
    exact List.mem_map.mpr ⟨(k, v), mem_of_mlookup hm, rfl⟩

theorem mlookup_of_mem_nodup {α : Type} {m : HMap α} {k : Nat} {v : α}
    (hn : (m.map Prod.fst).Nodup) (h : (k, v) ∈ m) : mlookup m k = some v := by
  induction m with
  | nil => simp at h
  | cons p rest ih =>
    obtain ⟨k'', v''⟩ := p
    rw [List.map_cons, List.nodup_cons] at hn
    obtain ⟨hnk, hnr⟩ := hn
    rcases List.mem_cons.mp h with h | h
    · cases h; simp [mlookup]
    · have hk : k'' ≠ k := by
        intro e; subst e
        exact hnk (List.mem_map.mpr ⟨(k'', v), h, rfl⟩)
      simpa [mlookup, hk] using ih hnr h

/-! ### Lemmas about `index_of` and `swapRemove` -/

theorem index_of_eq_none_iff (l : List Nat) (v : Nat) :
    index_of l v = none ↔ v ∉ l := by
  induction l with
  | nil => simp [index_of]
  | cons x xs ih =>
    by_cases h : x = v
    · subst h; simp [index_of]
    · simp only [index_of, if_neg h, Option.map_eq_none', ih, List.mem_cons]
      constructor
      · intro hnm
        rintro (he | hm)
        · exact h he.symm
        · exact hnm hm
      · intro hnm hm
        exact hnm (Or.inr hm)

theorem index_of_isSome_of_mem {l : List Nat} {v : Nat} (h : v ∈ l) :
    (index_of l v).isSome = true := by
  cases hio : index_of l v with
  | none => exact absurd h ((index_of_eq_none_iff l v).mp hio)
  | some i => rfl

theorem index_of_spec {l : List Nat} {v : Nat} {i : Nat}
    (h : index_of l v = some i) : i < l.length ∧ l.eraseIdx i = l.erase v := by
  induction l generalizing i with
  | nil => simp [index_of] at h
  | cons x xs ih =>
    by_cases hx : x = v
    · subst hx
      simp [index_of] at h
      subst h
      exact ⟨Nat.succ_pos _, by simp [List.eraseIdx_cons_zero, List.erase_cons_head]⟩
    · simp [index_of, hx] at h
      obtain ⟨j, hj, hi⟩ := h
      subst hi
      obtain ⟨h1, h2⟩ := ih hj
      refine ⟨Nat.succ_lt_succ h1, ?_⟩
      rw [List.eraseIdx_cons_succ, h2, List.erase_cons_tail]
      simp [hx]

theorem swapRemove_perm {α : Type} (l : List α) (i : Nat) (h : i < l.length) :
    (swapRemove l i).Perm (l.eraseIdx i) := by
  induction l generalizing i with
  | nil => simp at h
  | cons x xs ih =>
    cases i with
    | zero =>
      cases hxs : xs with
      | nil =>
        simp [swapRemove, List.getLast?_eq_getLast_of_ne_nil (l := [x]) (by simp)]
      | cons y ys =>
        have hne : xs ≠ [] := by simp [hxs]
        have hlast : (x :: xs).getLast? = some (xs.getLast hne) := by
          rw [List.getLast?_eq_getLast_of_ne_nil (by simp)]
          simp [List.getLast_cons hne]
        rw [← hxs]
        simp only [swapRemove, hlast, List.set_cons_zero, List.eraseIdx_cons_zero]
        rw [List.dropLast_cons_of_ne_nil hne]
        calc (xs.getLast hne :: xs.dropLast).Perm (xs.dropLast ++ [xs.getLast hne]) :=
              (List.perm_append_singleton _ _).symm
          _ = xs := List.dropLast_append_getLast hne
    | succ j =>
      simp only [List.length_cons, Nat.succ_lt_succ_iff] at h
      have hne : xs ≠ [] := by
        intro e; subst e; simp at h
      have hlast : (x :: xs).getLast? = some (xs.getLast hne) := by
        rw [List.getLast?_eq_getLast_of_ne_nil (by simp)]
        simp [List.getLast_cons hne]
      have hsetne : xs.set j (xs.getLast hne) ≠ [] := by
        intro e
        have := congrArg List.length e
        simp at this
        exact hne this
      simp only [swapRemove, hlast, List.set_cons_succ, List.eraseIdx_cons_succ]
      rw [List.dropLast_cons_of_ne_nil hsetne]
      refine List.Perm.cons x ?_
      have := ih j h
      simpa [swapRemove, List.getLast?_eq_getLast_of_ne_nil hne] using this

theorem swapRemove_erase {l : List Nat} {v i : Nat} (h : index_of l v = some i) :
    (swapRemove l i).Perm (l.erase v) := by
  obtain ⟨h1, h2⟩ := index_of_spec h
  rw [← h2]
  exact swapRemove_perm l i h1

theorem mem_swapRemove_iff {l : List Nat} {v i : Nat} (hn : l.Nodup)
    (h : index_of l v = some i) (x : Nat) :
    x ∈ swapRemove l i ↔ x ≠ v ∧ x ∈ l := by
  rw [(swapRemove_erase h).mem_iff]
  exact hn.mem_erase_iff

theorem nodup_swapRemove {l : List Nat} {i : Nat} (hn : l.Nodup) (h : i < l.length) :
    (swapRemove l i).Nodup := by
  rw [(swapRemove_perm l i h).nodup_iff]
  exact hn.eraseIdx i

/-! ### C1: Ping -/

/-- C1: the claim says `handle_request(u, Ping(n))` mutates nothing and
returns `Pong(n)` with an empty sends list.  The source's
`Server::handle_request` match has no arm for `Request::Ping` at all, so the
request has no defined behaviour: the embedding yields `none` for every
server state, user and sequence number. -/
theorem C1_ping_unhandled (s : Server) (u : UserID) (n : Nat) :
    s.handle_request u (.Ping n) = none := rfl

/-! ### C9: Send by a non-owner -/

/-- C9: for every existing room `r`, every payload and every user `u` other
than the room's owner — with no hypothesis that `u` exists in the users map
or belongs to the room — `Send(r, payload)` succeeds with no state change
and produces exactly the single send
`(rooms[r].owner_id, ReceivedFrom(r, u, payload))`. -/
theorem C9_send_nonowner (s : Server) (u : UserID) (r : RoomID) (room : Room)
    (payload : String) (hroom : mlookup s.rooms r = some room)
    (hne : room.owner_id ≠ u) :
    s.handle_request u (.Send r payload) =
      some (s, ⟨none, [(room.owner_id, .ReceivedFrom r u payload)]⟩) := by
  have hne' : ¬ u = room.owner_id := fun e => hne e.symm
  simp [Server.handle_request, Server.send, hroom, hne', Response.ofResult,
        Response.sendsTo]

def sC9 : Server :=
  ⟨4, 1, [(1, ⟨1, .RoomOwner 1⟩)], 1, [(1, ⟨1, 1, "g", [], []⟩)]⟩

/-- Witness for C9 at a concrete state: sender id 99 is absent from the
users map, yet `Send` succeeds and routes to the owner. -/
theorem C9_send_nonowner_witness :
    Server.handle_request sC9 99 (.Send 1 "hi") =
      some (sC9, ⟨none, [(1, .ReceivedFrom 1 99 "hi")]⟩) :=
  C9_send_nonowner sC9 99 1 ⟨1, 1, "g", [], []⟩ "hi" rfl (by decide)

/-! ### C10: precondition order for AcceptJoinRoom / RejectJoinRoom -/

/-- C10: for `AcceptJoinRoom(r, other)` and `RejectJoinRoom(r, other, why)`
the preconditions are checked in the fixed order: existence of `other`
(`NoSuchUser`), then existence of room `r` (`NoSuchRoom`), then caller
ownership (`NotRoomOwner`), then membership of `other` in
`join_requests` (`NoSuchJoinRequest`); in particular a missing `other`
yields `NoSuchUser` regardless of the room or the caller. -/
theorem C10_accept_reject_error_order (s : Server) (u : UserID) (r : RoomID)
    (o : UserID) (reason : String) :
    (mlookup s.users o = none →
      s.handle_request u (.AcceptJoinRoom r o) = some (s, Response.error .NoSuchUser) ∧
      s.handle_request u (.RejectJoinRoom r o reason) =
        some (s, Response.error .NoSuchUser)) ∧
    (∀ ou, mlookup s.users o = some ou → mlookup s.rooms r = none →
      s.handle_request u (.AcceptJoinRoom r o) = some (s, Response.error .NoSuchRoom) ∧
      s.handle_request u (.RejectJoinRoom r o reason) =
        some (s, Response.error .NoSuchRoom)) ∧
    (∀ ou room, mlookup s.users o = some ou → mlookup s.rooms r = some room →
      room.owner_id ≠ u →
      s.handle_request u (.AcceptJoinRoom r o) =
        some (s, Response.error .NotRoomOwner) ∧
      s.handle_request u (.RejectJoinRoom r o reason) =
        some (s, Response.error .NotRoomOwner)) ∧
    (∀ ou room, mlookup s.users o = some ou → mlookup s.rooms r = some room →
      room.owner_id = u → ou.id ∉ room.join_requests →
      s.handle_request u (.AcceptJoinRoom r o) =
        some (s, Response.error .NoSuchJoinRequest) ∧
      s.handle_request u (.RejectJoinRoom r o reason) =
        some (s, Response.error .NoSuchJoinRequest)) := by
  refine ⟨?_, ?_, ?_, ?_⟩
  · intro ho
    constructor <;>
      simp [Server.handle_request, Server.accept_join, Server.reject_join, ho,
            Response.ofResult]
  · intro ou ho hr
    constructor <;>
      simp [Server.handle_request, Server.accept_join, Server.reject_join, ho, hr,
            Response.ofResult]
  · intro ou room ho hr hown
    constructor <;>
      simp [Server.handle_request, Server.accept_join, Server.reject_join, ho, hr,
            Room.expect_owner, hown, Response.ofResult]
  · intro ou room ho hr hown hnotin
    have hidx : index_of room.join_requests ou.id = none :=
      (index_of_eq_none_iff _ _).mpr hnotin
    constructor <;>
      simp [Server.handle_request, Server.accept_join, Server.reject_join, ho, hr,
            Room.expect_owner, hown, Room.accept_join_request,
            Room.cancel_join_request, hidx, Response.ofResult]

def sC10 : Server :=
  ⟨4, 3, [(1, ⟨1, .RoomOwner 1⟩), (2, ⟨2, .RequestedJoin 1⟩), (3, ⟨3, .Nowhere⟩)],
   1, [(1, ⟨1, 1, "g", [], [2]⟩)]⟩

/-- Witness for C10: each of the four error stages fired at a concrete
state - a missing `other` yields `NoSuchUser` even though the room does not
exist either; then `NoSuchRoom`, `NotRoomOwner`, `NoSuchJoinRequest`. -/
theorem C10_accept_reject_error_order_witness :
    (Server.handle_request sC10 1 (.AcceptJoinRoom 99 5) =
      some (sC10, Response.error .NoSuchUser)) ∧
    (Server.handle_request sC10 1 (.AcceptJoinRoom 99 3) =
      some (sC10, Response.error .NoSuchRoom)) ∧
    (Server.handle_request sC10 2 (.RejectJoinRoom 1 3 "no") =
      some (sC10, Response.error .NotRoomOwner)) ∧
    (Server.handle_request sC10 1 (.AcceptJoinRoom 1 3) =
      some (sC10, Response.error .NoSuchJoinRequest)) :=
  ⟨((C10_accept_reject_error_order sC10 1 99 5 "x").1 (by decide)).1,
   ((C10_accept_reject_error_order sC10 1 99 3 "x").2.1 ⟨3, .Nowhere⟩ (by decide)
      (by decide)).1,
   ((C10_accept_reject_error_order sC10 2 1 3 "no").2.2.1 ⟨3, .Nowhere⟩
      ⟨1, 1, "g", [], [2]⟩ (by decide) (by decide) (by decide)).2,
   ((C10_accept_reject_error_order sC10 1 1 3 "x").2.2.2 ⟨3, .Nowhere⟩
      ⟨1, 1, "g", [], [2]⟩ (by decide) (by decide) (by decide) (by decide)).1⟩

/-! ### C2: LeaveRoom by a non-owner -/

def sC2 : Server :=
  ⟨4, 2, [(1, ⟨1, .RoomOwner 1⟩), (2, ⟨2, .RoomOwner 2⟩)], 2,
   [(1, ⟨1, 1, "a", [], []⟩), (2, ⟨2, 2, "b", [], []⟩)]⟩

/-- Counterexample to C2 as stated: user 2 owns room 2 and is not the owner
of existing room 1; the claim says `LeaveRoom(1)` must then fail with
`NotInThatRoom`, but the source (`User::leave_room`, models.rs) returns
`IsRoomOwner` for a user in any `RoomOwner` state. -/
theorem C2_counterexample :
    Server.handle_request sC2 2 (.LeaveRoom 1) =
      some (sC2, Response.error .IsRoomOwner) ∧
    ¬ ∃ t : Server, Server.handle_request sC2 2 (.LeaveRoom 1) =
      some (t, Response.error .NotInThatRoom) := by
  have h1 : Server.handle_request sC2 2 (.LeaveRoom 1) =
      some (sC2, Response.error .IsRoomOwner) := by decide
  refine ⟨h1, ?_⟩
  rintro ⟨t, ht⟩
  rw [h1] at ht
  have h2 := (Prod.mk.injEq _ _ _ _).mp (Option.some.inj ht)
  exact absurd h2.2 (by decide)

/-- C2 amended: for a user `u` (present in the users map) that is not the
owner of the existing room `r`, `handle_request(u, LeaveRoom(r))` removes
`u` from `rooms[r].members` when `u`'s state is `InRoom(r)` (and `u` is in
the members list), removes `u` from `rooms[r].join_requests` when the state
is `RequestedJoin(r)` (and `u` is in that list); a state `RoomOwner(r')`
(necessarily of a different room) fails with `Error(IsRoomOwner)` — not
`NotInThatRoom` as claimed — while `InRoom`/`RequestedJoin` of a different
room and `Nowhere` fail with `Error(NotInThatRoom)`; on success `u`'s state
becomes `Nowhere` and the single send `PlayerLeft(r, u)` is addressed to
the room owner. -/
theorem C2_leave_room_nonowner (s : Server) (u : UserID) (r : RoomID)
    (st : UserState) (room : Room)
    (hu : mlookup s.users u = some ⟨u, st⟩)
    (hr : mlookup s.rooms r = some room)
    (hrid : room.id = r)
    (hown : room.owner_id ≠ u) :
    (∀ i, st = .InRoom r → index_of room.members u = some i →
      s.handle_request u (.LeaveRoom r) =
        some ({ s with users := mupdate s.users u ⟨u, .Nowhere⟩,
                       rooms := mupdate s.rooms r
                         { room with members := swapRemove room.members i } },
              ⟨none, [(room.owner_id, .PlayerLeft r u)]⟩)) ∧
    (∀ i, st = .RequestedJoin r → index_of room.join_requests u = some i →
      s.handle_request u (.LeaveRoom r) =
        some ({ s with users := mupdate s.users u ⟨u, .Nowhere⟩,
                       rooms := mupdate s.rooms r
                         { room with join_requests := swapRemove room.join_requests i } },
              ⟨none, [(room.owner_id, .PlayerLeft r u)]⟩)) ∧
    (∀ r', st = .RoomOwner r' →
      s.handle_request u (.LeaveRoom r) = some (s, Response.error .IsRoomOwner)) ∧
    (∀ r', r' ≠ r → st = .InRoom r' →
      s.handle_request u (.LeaveRoom r) = some (s, Response.error .NotInThatRoom)) ∧
    (∀ r', r' ≠ r → st = .RequestedJoin r' →
      s.handle_request u (.LeaveRoom r) = some (s, Response.error .NotInThatRoom)) ∧
    (st = .Nowhere →
      s.handle_request u (.LeaveRoom r) = some (s, Response.error .NotInThatRoom)) := by
  have hown' : ¬ room.owner_id = u := hown
  have hue : mupdate s.users u (⟨u, st⟩ : User) = s.users := mupdate_self _ hu
  have hre : mupdate s.rooms r room = s.rooms := mupdate_self _ hr
  refine ⟨?_, ?_, ?_, ?_, ?_, ?_⟩
  · intro i hst hidx
    subst hst
    have hneo : ¬ u = room.owner_id := fun e => hown e.symm
    simp [Server.handle_request, Server.leave_room, hu, hr, hown', User.leave_room,
          hrid, Room.remove_user, hneo, hidx, Response.ofResult, Response.sendsTo]
  · intro i hst hidx
    subst hst
    simp [Server.handle_request, Server.leave_room, hu, hr, hown', User.leave_room,
          hrid, Room.cancel_join_request, hidx, Response.ofResult, Response.sendsTo]
  · intro r' hst
    subst hst
    simp [Server.handle_request, Server.leave_room, hu, hr, hown', User.leave_room,
          Response.ofResult, hue, hre]
  · intro r' hne hst
    subst hst
    have : ¬ r' = room.id := fun e => hne (e.trans hrid)
    simp [Server.handle_request, Server.leave_room, hu, hr, hown', User.leave_room,
          this, Response.ofResult, hue, hre]
  · intro r' hne hst
    subst hst
    have : ¬ r' = room.id := fun e => hne (e.trans hrid)
    simp [Server.handle_request, Server.leave_room, hu, hr, hown', User.leave_room,
          this, Response.ofResult, hue, hre]
  · intro hst
    subst hst
    simp [Server.handle_request, Server.leave_room, hu, hr, hown', User.leave_room,
          Response.ofResult, hue, hre]

def sC2w : Server :=
  ⟨4, 3, [(1, ⟨1, .RoomOwner 1⟩), (2, ⟨2, .InRoom 1⟩), (3, ⟨3, .Nowhere⟩)], 1,
   [(1, ⟨1, 1, "g", [2], []⟩)]⟩

/-- Witness for the amended C2 at a concrete state: member 2 leaves room 1
successfully (removed from members, state `Nowhere`, `PlayerLeft` sent to
the owner), and bystander 3 gets `NotInThatRoom`. -/
theorem C2_leave_room_nonowner_witness :
    (Server.handle_request sC2w 2 (.LeaveRoom 1) =
      some ({ sC2w with users := mupdate sC2w.users 2 ⟨2, .Nowhere⟩,
                        rooms := mupdate sC2w.rooms 1
                          { id := 1, owner_id := 1, data := "g",
                            members := swapRemove [2] 0, join_requests := [] } },
            ⟨none, [(1, .PlayerLeft 1 2)]⟩)) ∧
    (Server.handle_request sC2w 3 (.LeaveRoom 1) =
      some (sC2w, Response.error .NotInThatRoom)) :=
  ⟨(C2_leave_room_nonowner sC2w 2 1 (.InRoom 1) ⟨1, 1, "g", [2], []⟩ (by decide) rfl
      rfl (by decide)).1 0 rfl (by decide),
   (C2_leave_room_nonowner sC2w 3 1 .Nowhere ⟨1, 1, "g", [2], []⟩ (by decide) rfl
      rfl (by decide)).2.2.2.2.2 rfl⟩

/-! ### C8: the request parser (request.rs) -/

/-- Rust `str::split('|')` on the character list: always yields at least one
(possibly empty) segment, with empty segments around each separator. -/
def splitBarChars : List Char → List (List Char)
  | [] => [[]]
  | c :: rest =>
    match splitBarChars rest with
    | [] => [[c]]
    | p :: ps => if c = '|' then [] :: p :: ps else (c :: p) :: ps

def splitBar (s : String) : List String :=
  (splitBarChars s.data).map (fun l => ⟨l⟩)

/-- Rust `str::parse::<u32>`: an optional leading `+`, then one or more
ASCII digits, value below 2^32 (checked arithmetic errors on overflow,
which for digit strings is equivalent to the value bound). -/
def parseU32 (s : String) : Option Nat :=
  let ds := match s.data with
    | '+' :: t => t
    | t => t
  if ds ≠ [] ∧ ds.all Char.isDigit then
    let v := ds.foldl (fun a c => a * 10 + (c.toNat - 48)) 0
    if v < U32 then some v else none
  else none

/-- request.rs `Parts::take_int` (for `u32`). -/
def takeInt : List String → Option (Nat × List String)
  | [] => none
  | p :: ps => (parseU32 p).map (fun n => (n, ps))

/-- request.rs `Parts::take_string` (also covers `take_str`). -/
def takeString : List String → Option (String × List String)
  | [] => none
  | p :: ps => some (p, ps)

/-- request.rs `Parts::done`: succeeds only when no parts remain. -/
def doneThen (ps : List String) (req : Request) : Option Request :=
  if ps.isEmpty then some req else none

/-- request.rs `parse`, after splitting the line on `|`. -/
def parseParts : List String → Option Request
  | [] => none
  | verb :: rest =>
    if verb = "LIST_OPEN_GAMES" then doneThen rest .ListRooms
    else if verb = "PING" then
      (takeInt rest).bind (fun p => doneThen p.2 (.Ping p.1))
    else if verb = "CREATE_GAME" then
      (takeString rest).bind (fun p => doneThen p.2 (.CreateRoom p.1))
    else if verb = "SET_OWNER" then
      (takeInt rest).bind (fun p =>
        (takeInt p.2).bind (fun q => doneThen q.2 (.SetOwner p.1 q.1)))
    else if verb = "JOIN_GAME" then
      (takeInt rest).bind (fun p =>
        (takeString p.2).bind (fun q => doneThen q.2 (.AskJoinRoom p.1 q.1)))
    else if verb = "LEAVE_GAME" then
      (takeInt rest).bind (fun p => doneThen p.2 (.LeaveRoom p.1))
    else if verb = "ACCEPT_JOIN" then
      (takeInt rest).bind (fun p =>
        (takeInt p.2).bind (fun q => doneThen q.2 (.AcceptJoinRoom p.1 q.1)))
    else if verb = "REJECT_JOIN" then
      (takeInt rest).bind (fun p =>
        (takeInt p.2).bind (fun q =>
          (takeString q.2).bind (fun w => doneThen w.2 (.RejectJoinRoom p.1 q.1 w.1))))
    else if verb = "SEND" then
      (takeInt rest).bind (fun p =>
        (takeString p.2).bind (fun q => doneThen q.2 (.Send p.1 q.1)))
    else if verb = "SEND_TO" then
      (takeInt rest).bind (fun p =>
        (takeInt p.2).bind (fun q =>
          (takeString q.2).bind (fun w => doneThen w.2 (.SendTo p.1 q.1 w.1))))
    else if verb = "ECHO_FROM" then
      (takeInt rest).bind (fun p =>
        (takeInt p.2).bind (fun q =>
          (takeString q.2).bind (fun w => doneThen w.2 (.EchoFrom p.1 q.1 w.1))))
    else if verb = "QUIT" then doneThen rest .Quit
    else none

/-- request.rs `parse`. -/
def parse (line : String) : Option Request := parseParts (splitBar line)

/-- Spec-side shape: a verb declaring no fields. -/
def shape0 (req : Request) : List String → Option Request
  | [] => some req
  | _ :: _ => none

/-- Spec-side shape: exactly one integer field. -/
def shapeInt (f : Nat → Request) : List String → Option Request
  | [a] => (parseU32 a).map f
  | _ => none

/-- Spec-side shape: exactly one opaque string field. -/
def shapeStr (f : String → Request) : List String → Option Request
  | [a] => some (f a)
  | _ => none

/-- Spec-side shape: exactly two integer fields. -/
def shapeIntInt (f : Nat → Nat → Request) : List String → Option Request
  | [a, b] => (parseU32 a).bind (fun x => (parseU32 b).map (f x))
  | _ => none

/-- Spec-side shape: an integer field then a string field. -/
def shapeIntStr (f : Nat → String → Request) : List String → Option Request
  | [a, b] => (parseU32 a).map (fun x => f x b)
  | _ => none

/-- Spec-side shape: two integer fields then a string field. -/
def shapeIntIntStr (f : Nat → Nat → String → Request) : List String → Option Request
  | [a, b, c] => (parseU32 a).bind (fun x => (parseU32 b).map (fun y => f x y c))
  | _ => none

/-- Spec-side parser, written from the specification's words: a line is
valid exactly when the first field is a known verb, each declared integer
field parses as a non-negative 32-bit integer, no required field is
missing, and no extra fields remain after the declared arity; a valid
line yields the request value carrying the fields in order. -/
def specParts : List String → Option Request
  | [] => none
  | verb :: rest =>
    if verb = "LIST_OPEN_GAMES" then shape0 .ListRooms rest
    else if verb = "PING" then shapeInt .Ping rest
    else if verb = "CREATE_GAME" then shapeStr .CreateRoom rest
    else if verb = "SET_OWNER" then shapeIntInt .SetOwner rest
    else if verb = "JOIN_GAME" then shapeIntStr .AskJoinRoom rest
    else if verb = "LEAVE_GAME" then shapeInt .LeaveRoom rest
    else if verb = "ACCEPT_JOIN" then shapeIntInt .AcceptJoinRoom rest
    else if verb = "REJECT_JOIN" then shapeIntIntStr .RejectJoinRoom rest
    else if verb = "SEND" then shapeIntStr .Send rest
    else if verb = "SEND_TO" then shapeIntIntStr .SendTo rest
    else if verb = "ECHO_FROM" then shapeIntIntStr .EchoFrom rest
    else if verb = "QUIT" then shape0 .Quit rest
    else none

/-- Spec-side parse on whole lines. -/
def specParse (line : String) : Option Request := specParts (splitBar line)

theorem done_shape (req : Request) : ∀ rest : List String,
    doneThen rest req = shape0 req rest
  | [] => rfl
  | _ :: _ => rfl

theorem int_done_shape (f : Nat → Request) : ∀ rest : List String,
    (takeInt rest).bind (fun p => doneThen p.2 (f p.1)) = shapeInt f rest
  | [] => rfl
  | [a] => by cases h : parseU32 a <;> simp [takeInt, doneThen, shapeInt, h]
  | a :: _ :: _ => by cases h : parseU32 a <;> simp [takeInt, doneThen, shapeInt, h]

theorem str_done_shape (f : String → Request) : ∀ rest : List String,
    (takeString rest).bind (fun p => doneThen p.2 (f p.1)) = shapeStr f rest
  | [] => rfl
  | [_] => rfl
  | _ :: _ :: _ => rfl

theorem int_int_done_shape (f : Nat → Nat → Request) : ∀ rest : List String,
    (takeInt rest).bind (fun p => (takeInt p.2).bind (fun q => doneThen q.2 (f p.1 q.1))) =
      shapeIntInt f rest
  | [] => rfl
  | [a] => by cases h : parseU32 a <;> simp [takeInt, doneThen, shapeIntInt, h]
  | [a, b] => by
      cases h : parseU32 a <;> cases h2 : parseU32 b <;>
        simp [takeInt, doneThen, shapeIntInt, h, h2]
  | a :: b :: _ :: _ => by
      cases h : parseU32 a <;> cases h2 : parseU32 b <;>
        simp [takeInt, doneThen, shapeIntInt, h, h2]

theorem int_str_done_shape (f : Nat → String → Request) : ∀ rest : List String,
    (takeInt rest).bind (fun p => (takeString p.2).bind (fun q => doneThen q.2 (f p.1 q.1))) =
      shapeIntStr f rest
  | [] => rfl
  | [a] => by cases h : parseU32 a <;> simp [takeInt, takeString, doneThen, shapeIntStr, h]
  | [a, b] => by
      cases h : parseU32 a <;> simp [takeInt, takeString, doneThen, shapeIntStr, h]
  | a :: b :: _ :: _ => by
      cases h : parseU32 a <;> simp [takeInt, takeString, doneThen, shapeIntStr, h]

theorem int_int_str_done_shape (f : Nat → Nat → String → Request) : ∀ rest : List String,
    (takeInt rest).bind (fun p => (takeInt p.2).bind (fun q =>
      (takeString q.2).bind (fun w => doneThen w.2 (f p.1 q.1 w.1)))) =
      shapeIntIntStr f rest
  | [] => rfl
  | [a] => by cases h : parseU32 a <;> simp [takeInt, takeString, doneThen, shapeIntIntStr, h]
  | [a, b] => by
      cases h : parseU32 a <;> cases h2 : parseU32 b <;>
        simp [takeInt, takeString, doneThen, shapeIntIntStr, h, h2]
  | [a, b, c] => by
      cases h : parseU32 a <;> cases h2 : parseU32 b <;>
        simp [takeInt, takeString, doneThen, shapeIntIntStr, h, h2]
  | a :: b :: c :: _ :: _ => by
      cases h : parseU32 a <;> cases h2 : parseU32 b <;>
        simp [takeInt, takeString, doneThen, shapeIntIntStr, h, h2]

theorem parseParts_eq_specParts (ps : List String) : parseParts ps = specParts ps := by
  cases ps with
  | nil => rfl
  | cons verb rest =>
    rw [parseParts.eq_2, specParts.eq_2]
    by_cases h1 : verb = "LIST_OPEN_GAMES"
    · rw [if_pos h1, if_pos h1]; exact done_shape _ rest
    rw [if_neg h1, if_neg h1]
    by_cases h2 : verb = "PING"
    · rw [if_pos h2, if_pos h2]; exact int_done_shape _ rest
    rw [if_neg h2, if_neg h2]
    by_cases h3 : verb = "CREATE_GAME"
    · rw [if_pos h3, if_pos h3]; exact str_done_shape _ rest
    rw [if_neg h3, if_neg h3]
    by_cases h4 : verb = "SET_OWNER"
    · rw [if_pos h4, if_pos h4]; exact int_int_done_shape _ rest
    rw [if_neg h4, if_neg h4]
    by_cases h5 : verb = "JOIN_GAME"
    · rw [if_pos h5, if_pos h5]; exact int_str_done_shape _ rest
    rw [if_neg h5, if_neg h5]
    by_cases h6 : verb = "LEAVE_GAME"
    · rw [if_pos h6, if_pos h6]; exact int_done_shape _ rest
    rw [if_neg h6, if_neg h6]
    by_cases h7 : verb = "ACCEPT_JOIN"
    · rw [if_pos h7, if_pos h7]; exact int_int_done_shape _ rest
    rw [if_neg h7, if_neg h7]
    by_cases h8 : verb = "REJECT_JOIN"
    · rw [if_pos h8, if_pos h8]; exact int_int_str_done_shape _ rest
    rw [if_neg h8, if_neg h8]
    by_cases h9 : verb = "SEND"
    · rw [if_pos h9, if_pos h9]; exact int_str_done_shape _ rest
    rw [if_neg h9, if_neg h9]
    by_cases h10 : verb = "SEND_TO"
    · rw [if_pos h10, if_pos h10]; exact int_int_str_done_shape _ rest
    rw [if_neg h10, if_neg h10]
    by_cases h11 : verb = "ECHO_FROM"
    · rw [if_pos h11, if_pos h11]; exact int_int_str_done_shape _ rest
    rw [if_neg h11, if_neg h11]
    by_cases h12 : verb = "QUIT"
    · rw [if_pos h12, if_pos h12]; exact done_shape _ rest
    rw [if_neg h12, if_neg h12]

/-- C8: the parser accepts exactly the lines of the declared shapes — known
verb, integer fields parsing as non-negative 32-bit integers, no missing
and no extra fields — and on a matching line returns the request carrying
the fields in order (`parse` coincides with the spec-shaped `specParse`
on every input line). -/
theorem C8_parse_correct (line : String) : parse line = specParse line :=
  parseParts_eq_specParts (splitBar line)

/-! ### The allocator: lemmas about `next_id` -/

theorem U32_eq : U32 = 4294967296 := by norm_num [U32]

theorem mod_shift (a m : Nat) : (a % U32 + m) % U32 = (a + m) % U32 := by
  rw [U32_eq]; omega

theorem nextIdGo_some {occ : Nat → Bool} {fuel start id : Nat}
    (h : nextIdGo occ fuel start = some id) :
    occ id = false ∧ ∃ d, d < fuel ∧ id = (start + 1 + d) % U32 ∧
      ∀ d', d' < d → occ ((start + 1 + d') % U32) = true := by
  induction fuel generalizing start with
  | zero => simp [nextIdGo] at h
  | succ n ih =>
    simp only [nextIdGo] at h
    by_cases hc : occ ((start + 1) % U32) = true
    · rw [if_pos hc] at h
      obtain ⟨hocc, d, hd, hid, hall⟩ := ih h
      refine ⟨hocc, d + 1, Nat.succ_lt_succ hd, ?_, ?_⟩
      · rw [hid, Nat.add_assoc, mod_shift, Nat.add_comm 1 d]
      · intro d' hd'
        cases d' with
        | zero => simpa using hc
        | succ e =>
          have he := hall e (Nat.lt_of_succ_lt_succ hd')
          rw [Nat.add_assoc, mod_shift, Nat.add_comm 1 e] at he
          exact he
    · rw [if_neg hc] at h
      refine ⟨?_, 0, Nat.succ_pos n, (Option.some.inj h).symm, fun d' hd' => absurd hd' (Nat.not_lt_zero d')⟩
      rw [← Option.some.inj h]
      exact Bool.eq_false_iff.mpr hc

theorem nextIdGo_none_occ {occ : Nat → Bool} {fuel start : Nat}
    (h : nextIdGo occ fuel start = none) :
    ∀ d, d < fuel → occ ((start + 1 + d) % U32) = true := by
  induction fuel generalizing start with
  | zero => intro d hd; exact absurd hd (Nat.not_lt_zero d)
  | succ n ih =>
    intro d hd
    simp only [nextIdGo] at h
    by_cases hc : occ ((start + 1) % U32) = true
    · rw [if_pos hc] at h
      cases d with
      | zero => simpa using hc
      | succ e =>
        have he := ih h e (Nat.lt_of_succ_lt_succ hd)
        rw [Nat.add_assoc, mod_shift, Nat.add_comm 1 e] at he
        exact he
    · rw [if_neg hc] at h
      cases h

theorem exists_d_cover (start j : Nat) (hj : j < U32) :
    ∃ d, d < U32 ∧ (start + 1 + d) % U32 = j := by
  rw [U32_eq] at *
  exact ⟨(j + 4294967296 - (start + 1) % 4294967296) % 4294967296, by omega, by omega⟩

theorem next_id_isSome {α : Type} (last : Nat) (m : HMap α) (j : Nat) (hj : j < U32)
    (hfree : mlookup m j = none) : (next_id last m).isSome = true := by
  cases hn : next_id last m with
  | some id => rfl
  | none =>
    exfalso
    obtain ⟨d, hd, hdj⟩ := exists_d_cover last j hj
    have hocc := nextIdGo_none_occ hn d hd
    rw [hdj, hfree] at hocc
    cases hocc

/-- The scan position of candidate `x` when scanning from `last + 1`. -/
def distFrom (last x : Nat) : Nat := (x + U32 - (last % U32 + 1)) % U32

theorem dist_eq {last id d : Nat} (hd : d < U32) (hid : id = (last + 1 + d) % U32) :
    distFrom last id = d := by
  subst hid
  unfold distFrom
  rw [U32_eq] at *
  omega

/-! ### C6: add_user -/

/-- C6: `add_user` returns "none" exactly when the users map already holds
at least `max_connections` users; otherwise (given some free 32-bit id, as
in every real state) it allocates the first id not currently present
scanning from `last_user_id + 1` with wrapping 32-bit increment — an id
never currently live — inserts a new `Nowhere` user under it, sets
`last_user_id` to it, and the user count stays within `max_connections`. -/
theorem C6_add_user (s : Server) :
    (s.users.length ≥ s.max_connections → s.add_user = some (s, none)) ∧
    (s.users.length < s.max_connections →
      (∃ j, j < U32 ∧ mlookup s.users j = none) →
      ∃ id, next_id s.last_user_id s.users = some id ∧
        s.add_user = some
          ({ s with users := minsert s.users id ⟨id, .Nowhere⟩, last_user_id := id },
           some id) ∧
        mlookup s.users id = none ∧
        id = (s.last_user_id + 1 + distFrom s.last_user_id id) % U32 ∧
        (∀ d', d' < distFrom s.last_user_id id →
          (mlookup s.users ((s.last_user_id + 1 + d') % U32)).isSome = true) ∧
        (minsert s.users id ⟨id, .Nowhere⟩).length ≤ s.max_connections) := by
  constructor
  · intro hge
    simp [Server.add_user, hge]
  · intro hlt ⟨j, hj, hfree⟩
    have hsome := next_id_isSome s.last_user_id s.users j hj hfree
    obtain ⟨id, hid⟩ := Option.isSome_iff_exists.mp hsome
    obtain ⟨hocc, d, hd, hidd, hall⟩ := nextIdGo_some hid
    have hdist : distFrom s.last_user_id id = d := dist_eq hd hidd
    refine ⟨id, hid, ?_, ?_, ?_, ?_, ?_⟩
    · simp [Server.add_user, Nat.not_le.mpr hlt, hid]
    · simpa using hocc
    · rw [hdist]; exact hidd
    · intro d' hd'
      rw [hdist] at hd'
      exact hall d' hd'
    · simpa [minsert] using hlt

def sC6full : Server := ⟨1, 0, [(7, ⟨7, .Nowhere⟩)], 0, []⟩
def sC6free : Server := ⟨2, 5, [(6, ⟨6, .Nowhere⟩)], 0, []⟩

/-- Witness for C6 at concrete states: a full server refuses; in a server
with a free slot and `last_user_id = 5` the scan starts at 6, which is
live, so the first free id on the scan is 7. -/
theorem C6_add_user_witness :
    (Server.add_user sC6full = some (sC6full, none)) ∧
    (∃ id, next_id sC6free.last_user_id sC6free.users = some id ∧
      Server.add_user sC6free = some
        ({ sC6free with users := minsert sC6free.users id ⟨id, .Nowhere⟩,
                        last_user_id := id },
         some id) ∧
      mlookup sC6free.users id = none ∧
      id = (sC6free.last_user_id + 1 + distFrom sC6free.last_user_id id) % U32 ∧
      (∀ d', d' < distFrom sC6free.last_user_id id →
        (mlookup sC6free.users ((sC6free.last_user_id + 1 + d') % U32)).isSome = true) ∧
      (minsert sC6free.users id ⟨id, .Nowhere⟩).length ≤ sC6free.max_connections) :=
  ⟨(C6_add_user sC6full).1 (by decide),
   (C6_add_user sC6free).2 (by decide) ⟨9, by norm_num [U32], by decide⟩⟩

/-! ### C3: is zero ever allocated? -/

theorem next_id_empty {α : Type} (n : Nat) :
    next_id n ([] : HMap α) = some ((n + 1) % U32) := by
  unfold next_id
  rw [show U32 = 4294967295 + 1 from by norm_num [U32]]
  simp [nextIdGo, mlookup]
  rw [U32_eq]

theorem add_user_empty (mc last : Nat) (hmc : 1 ≤ mc) :
    (Server.mk mc last [] 0 []).add_user =
      some (⟨mc, (last + 1) % U32,
             [((last + 1) % U32, ⟨(last + 1) % U32, .Nowhere⟩)], 0, []⟩,
            some ((last + 1) % U32)) := by
  have hnot : ¬ (List.length ([] : HMap User) ≥ mc) := by simp; omega
  simp [Server.add_user, hnot, next_id_empty, minsert]
  omega

theorem remove_user_single (mc last c : Nat) :
    (Server.mk mc last [(c, ⟨c, .Nowhere⟩)] 0 []).remove_user c =
      (⟨mc, last, [], 0, []⟩, .ok Response.empty) := by
  simp [Server.remove_user, mlookup, merase]

/-- After `k` add/remove cycles on a 1-connection server, the state has no
users and `last_user_id = k % 2^32`. -/
theorem reach_cycle (k : Nat) : Reachable ⟨1, k % U32, [], 0, []⟩ := by
  induction k with
  | zero =>
    have h0 : (0 : Nat) % U32 = 0 := Nat.zero_mod U32
    rw [h0]
    exact Reachable.init 1
  | succ k ih =>
    have hc : (k % U32 + 1) % U32 = (k + 1) % U32 := mod_shift k 1
    have s1 : Reachable ⟨1, (k % U32 + 1) % U32,
        [((k % U32 + 1) % U32, ⟨(k % U32 + 1) % U32, .Nowhere⟩)], 0, []⟩ :=
      Reachable.step ih (Step.add _ _ _ (add_user_empty 1 (k % U32) (le_refl 1)))
    have s2 := Reachable.step s1 (Step.remove _ ((k % U32 + 1) % U32))
    rw [remove_user_single] at s2
    rwa [hc] at s2

/-- Counterexample to C3: the state with `last_user_id = u32::MAX` and no
live users is reachable (after `2^32 - 1` add/remove cycles of a
1-connection server), and there `add_user` allocates and returns
UserID 0, which becomes live. -/
theorem C3_counterexample :
    Reachable ⟨1, U32 - 1, [], 0, []⟩ ∧
    (Server.mk 1 (U32 - 1) [] 0 []).add_user =
      some (⟨1, 0, [(0, ⟨0, .Nowhere⟩)], 0, []⟩, some 0) := by
  constructor
  · have h := reach_cycle (U32 - 1)
    rwa [Nat.mod_eq_of_lt (by norm_num [U32])] at h
  · rw [add_user_empty 1 (U32 - 1) (le_refl 1)]
    norm_num [U32_eq]

/-- C3 amended: the allocator only returns identifiers not currently in
use, always below 2^32, and returns 0 only when the scan has wrapped past
`u32::MAX` — that is, only when every identifier strictly between
`last_id` and 2^32 is currently occupied.  (Zero is not reserved: once
`last_user_id` reaches `u32::MAX` with 0 unoccupied, `add_user` does
return 0.) -/
theorem C3_zero_allocation {α : Type} (last : Nat) (m : HMap α) (id : Nat)
    (h : next_id last m = some id) :
    mlookup m id = none ∧ id < U32 ∧
    (id = 0 → ∀ j, last < j → j < U32 → (mlookup m j).isSome = true) := by
  obtain ⟨hocc, d, hd, hid, hall⟩ := nextIdGo_some h
  refine ⟨?_, ?_, ?_⟩
  · cases hm : mlookup m id with
    | none => rfl
    | some v => rw [hm] at hocc; simp at hocc
  · rw [hid]; exact Nat.mod_lt _ (by norm_num [U32])
  · intro h0 j hj1 hj2
    rw [h0] at hid
    have hd' : j - last - 1 < d := by
      rw [U32_eq] at hd hj2 hid
      omega
    have hj := hall (j - last - 1) hd'
    rw [show last + 1 + (j - last - 1) = j from by omega] at hj
    rwa [Nat.mod_eq_of_lt hj2] at hj

/-- Witness for the amended C3: on the empty map with `last_id = 5` the
allocator returns 6, which is free, below 2^32, and nonzero. -/
theorem C3_zero_allocation_witness :
    mlookup ([] : HMap User) 6 = none ∧ 6 < U32 ∧
    ((6 : Nat) = 0 → ∀ j, 5 < j → j < U32 →
      (mlookup ([] : HMap User) j).isSome = true) :=
  C3_zero_allocation 5 [] 6 (by rw [next_id_empty]; norm_num [U32_eq])

/-! ### Closing a room: characterisation of `closeLoop` and `close_room` -/

/-- Setting a user's state to `Nowhere`. -/
def setNowhere (u : User) : User := { u with state := UserState.Nowhere }

theorem closeLoop_ok (rid : RoomID) : ∀ (lst : List UserID) (s : Server),
    (∀ m ∈ lst, (mlookup s.users m).isSome = true) →
    ∃ us : HMap User,
      closeLoop rid s lst =
        (⟨s.max_connections, s.last_user_id, us, s.last_room_id, s.rooms⟩,
         .ok (lst.map (fun m => (m, Message.RoomClosed rid)))) ∧
      us.map Prod.fst = s.users.map Prod.fst ∧
      ∀ x, mlookup us x =
        if x ∈ lst then (mlookup s.users x).map setNowhere
        else mlookup s.users x
  | [], s, _ => by
    refine ⟨s.users, ?_, rfl, fun x => by simp⟩
    simp [closeLoop]
  | u :: rest, s, hmem => by
    have hu : (mlookup s.users u).isSome = true := hmem u (List.mem_cons_self u rest)
    obtain ⟨usr, husr⟩ := Option.isSome_iff_exists.mp hu
    have hsdef : ∀ x, mlookup (mupdate s.users u { usr with state := .Nowhere }) x =
        if x = u then some { usr with state := UserState.Nowhere }
        else mlookup s.users x := by
      intro x
      by_cases hx : x = u
      · subst hx
        simp [mlookup_mupdate_self _ _ husr]
      · simp [hx, mlookup_mupdate_ne _ _ (fun e => hx e.symm)]
    have hrest : ∀ m ∈ rest,
        (mlookup (mupdate s.users u { usr with state := .Nowhere }) m).isSome = true := by
      intro m hm
      rw [hsdef m]
      by_cases hx : m = u
      · simp [hx]
      · simp only [if_neg hx]
        exact hmem m (List.mem_cons_of_mem _ hm)
    obtain ⟨us, hloop, hkeys, hchar⟩ := closeLoop_ok rid rest
        ⟨s.max_connections, s.last_user_id,
         mupdate s.users u { usr with state := .Nowhere }, s.last_room_id, s.rooms⟩
        hrest
    refine ⟨us, ?_, ?_, ?_⟩
    · show closeLoop rid s (u :: rest) = _
      simp only [closeLoop, husr]
      rw [hloop]
      rfl
    · rw [hkeys]
      exact keys_mupdate _ _ _
    · intro x
      have hx := hchar x
      simp only at hx
      rw [hx, hsdef x]
      by_cases hxu : x = u
      · subst hxu
        by_cases hxr : x ∈ rest <;>
          simp [hxr, husr, setNowhere, List.mem_cons]
      · by_cases hxr : x ∈ rest <;>
          simp [hxr, hxu, List.mem_cons]

theorem close_room_ok (s : Server) (r : RoomID) (room : Room)
    (hr : mlookup s.rooms r = some room)
    (hmem : ∀ m ∈ room.members ++ room.join_requests,
      (mlookup s.users m).isSome = true) :
    ∃ us : HMap User,
      s.close_room r =
        (⟨s.max_connections, s.last_user_id, us, s.last_room_id, merase s.rooms r⟩,
         .ok (Response.sends_all ((room.members ++ room.join_requests).map
           (fun m => (m, Message.RoomClosed r))))) ∧
      us.map Prod.fst = s.users.map Prod.fst ∧
      ∀ x, mlookup us x =
        if x ∈ room.members ++ room.join_requests ∨ x = room.owner_id then
          (mlookup s.users x).map setNowhere
        else mlookup s.users x := by
  cases how : mlookup s.users room.owner_id with
  | none =>
    obtain ⟨us, hloop, hkeys, hchar⟩ := closeLoop_ok r (room.members ++ room.join_requests)
        ⟨s.max_connections, s.last_user_id, s.users, s.last_room_id, merase s.rooms r⟩
        (by intro m hm; exact hmem m hm)
    refine ⟨us, ?_, hkeys, ?_⟩
    · show s.close_room r = _
      simp only [Server.close_room, hr, how]
      rw [hloop]
    · intro x
      have hx := hchar x
      simp only at hx
      rw [hx]
      by_cases hxl : x ∈ room.members ++ room.join_requests
      · simp [hxl]
      · by_cases hxo : x = room.owner_id
        · subst hxo
          simp [hxl, how]
        · simp [hxl, hxo]
  | some owner =>
    have s2def : ∀ x,
        mlookup (mupdate s.users room.owner_id { owner with state := .Nowhere }) x =
          if x = room.owner_id then some { owner with state := UserState.Nowhere }
          else mlookup s.users x := by
      intro x
      by_cases hx : x = room.owner_id
      · subst hx
        simp [mlookup_mupdate_self _ _ how]
      · simp [hx, mlookup_mupdate_ne _ _ (fun e => hx e.symm)]
    obtain ⟨us, hloop, hkeys, hchar⟩ := closeLoop_ok r (room.members ++ room.join_requests)
        ⟨s.max_connections, s.last_user_id,
         mupdate s.users room.owner_id { owner with state := .Nowhere },
         s.last_room_id, merase s.rooms r⟩
        (by
          intro m hm
          rw [s2def m]
          by_cases hx : m = room.owner_id
          · simp [hx]
          · simp only [if_neg hx]
            exact hmem m hm)
    refine ⟨us, ?_, ?_, ?_⟩
    · show s.close_room r = _
      simp only [Server.close_room, hr, how]
      rw [hloop]
    · rw [hkeys]
      exact keys_mupdate _ _ _
    · intro x
      have hx := hchar x
      simp only at hx
      rw [hx, s2def x]
      by_cases hxl : x ∈ room.members ++ room.join_requests
      · by_cases hxo : x = room.owner_id <;>
          simp [hxl, hxo, how, setNowhere]
      · by_cases hxo : x = room.owner_id
        · subst hxo
          simp [hxl, how, setNowhere]
        · simp [hxl, hxo]

/-! ### C7: the owner leaving or disconnecting closes the room -/

/-- C7: for a room `r` whose owner `u` is live in state `RoomOwner(r)` (as
in every consistent state), with every member and pending joiner live,
no duplicates, and the owner in neither list, both
`handle_request(u, LeaveRoom(r))` and `remove_user(u)` close the room:
`r` is removed from the rooms map, every member and pending joiner is set
to `Nowhere` (the owner too where still present — `LeaveRoom` keeps the
owner record, `remove_user` has already deleted it), the response carries
exactly one `RoomClosed(r)` send per member and per pending joiner in
list order, none of them addressed to the owner, and an empty return
message. -/
theorem C7_owner_closes_room (s : Server) (u : UserID) (r : RoomID) (room : Room)
    (hu : mlookup s.users u = some ⟨u, .RoomOwner r⟩)
    (hr : mlookup s.rooms r = some room)
    (hown : room.owner_id = u)
    (hmem : ∀ m ∈ room.members ++ room.join_requests,
      (mlookup s.users m).isSome = true)
    (hnodup : (room.members ++ room.join_requests).Nodup)
    (hnotown : u ∉ room.members ++ room.join_requests) :
    (∃ s', s.handle_request u (.LeaveRoom r) =
        some (s', ⟨none, (room.members ++ room.join_requests).map
          (fun m => (m, Message.RoomClosed r))⟩) ∧
      mlookup s'.rooms r = none ∧
      mlookup s'.users u = some ⟨u, .Nowhere⟩ ∧
      (∀ m ∈ room.members ++ room.join_requests,
        mlookup s'.users m = (mlookup s.users m).map setNowhere) ∧
      (∀ p ∈ (room.members ++ room.join_requests).map
          (fun m => (m, Message.RoomClosed r)), p.1 ≠ u)) ∧
    (∃ s'', s.remove_user u =
        (s'', .ok ⟨none, (room.members ++ room.join_requests).map
          (fun m => (m, Message.RoomClosed r))⟩) ∧
      mlookup s''.rooms r = none ∧
      mlookup s''.users u = none ∧
      (∀ m ∈ room.members ++ room.join_requests,
        mlookup s''.users m = (mlookup s.users m).map setNowhere)) := by
  constructor
  · obtain ⟨us, hclose, hkeys, hchar⟩ := close_room_ok s r room hr hmem
    refine ⟨⟨s.max_connections, s.last_user_id, us, s.last_room_id, merase s.rooms r⟩,
      ?_, ?_, ?_, ?_, ?_⟩
    · simp only [Server.handle_request, Server.leave_room, hu, hr]
      rw [if_pos hown, hclose]
      rfl
    · simp [mlookup_merase]
    · have hx := hchar u
      rw [if_pos (Or.inr hown.symm)] at hx
      rw [hx, hu]
      rfl
    · intro m hm
      have hx := hchar m
      rw [if_pos (Or.inl hm)] at hx
      exact hx
    · intro p hp
      obtain ⟨m, hm, hpm⟩ := List.mem_map.mp hp
      subst hpm
      intro he
      exact hnotown (he ▸ hm)
  · have hmem' : ∀ m ∈ room.members ++ room.join_requests,
        (mlookup (merase s.users u) m).isSome = true := by
      intro m hm
      rw [mlookup_merase]
      rw [if_neg (fun e => hnotown (by rw [e]; exact hm))]
      exact hmem m hm
    obtain ⟨us, hclose, hkeys, hchar⟩ := close_room_ok
        ⟨s.max_connections, s.last_user_id, merase s.users u, s.last_room_id, s.rooms⟩
        r room hr hmem'
    refine ⟨⟨s.max_connections, s.last_user_id, us, s.last_room_id, merase s.rooms r⟩,
      ?_, ?_, ?_, ?_⟩
    · simp only [Server.remove_user, hu]
      rw [hclose]
      rfl
    · simp [mlookup_merase]
    · have hx := hchar u
      rw [if_pos (Or.inr hown.symm)] at hx
      simp only at hx
      rw [hx]
      rw [mlookup_merase]
      simp
    · intro m hm
      have hx := hchar m
      rw [if_pos (Or.inl hm)] at hx
      simp only at hx
      rw [hx]
      rw [mlookup_merase, if_neg (fun e => hnotown (by rw [e]; exact hm))]

def sC7 : Server :=
  ⟨4, 3, [(1, ⟨1, .RoomOwner 1⟩), (2, ⟨2, .InRoom 1⟩), (3, ⟨3, .RequestedJoin 1⟩)], 1,
   [(1, ⟨1, 1, "g", [2], [3]⟩)]⟩

/-- Witness for C7 at a concrete state: owner 1 of room 1 with member 2 and
pending joiner 3; both paths close the room with one `RoomClosed` send to
each of 2 and 3. -/
theorem C7_owner_closes_room_witness :
    (∃ s', Server.handle_request sC7 1 (.LeaveRoom 1) =
        some (s', ⟨none, ([2, 3] : List UserID).map
          (fun m => (m, Message.RoomClosed 1))⟩) ∧
      mlookup s'.rooms 1 = none ∧
      mlookup s'.users 1 = some ⟨1, .Nowhere⟩ ∧
      (∀ m ∈ ([2] : List UserID) ++ [3],
        mlookup s'.users m = (mlookup sC7.users m).map setNowhere) ∧
      (∀ p ∈ (([2] : List UserID) ++ [3]).map
          (fun m => (m, Message.RoomClosed 1)), p.1 ≠ 1)) ∧
    (∃ s'', Server.remove_user sC7 1 =
        (s'', .ok ⟨none, ([2, 3] : List UserID).map
          (fun m => (m, Message.RoomClosed 1))⟩) ∧
      mlookup s''.rooms 1 = none ∧
      mlookup s''.users 1 = none ∧
      (∀ m ∈ ([2] : List UserID) ++ [3],
        mlookup s''.users m = (mlookup sC7.users m).map setNowhere)) :=
  C7_owner_closes_room sC7 1 1 ⟨1, 1, "g", [2], [3]⟩ (by decide) rfl rfl
    (by decide) (by decide) (by decide)

/-! ### C4: failed requests mutate nothing -/

/-- State-consistency as checked by C4 (the spec's I1/I4 restricted to what
the error paths touch): stored ids match the map keys, every member and
pending joiner of every room is a live user, and a user in state
`InRoom(r)`/`RequestedJoin(r)` appears in the respective list of room `r`
when that room exists. -/
def consistentB (s : Server) : Bool :=
  s.users.all (fun q => q.2.id == q.1) &&
  s.rooms.all (fun p => p.2.id == p.1) &&
  s.rooms.all (fun p => (p.2.members ++ p.2.join_requests).all
    (fun m => (mlookup s.users m).isSome)) &&
  s.users.all (fun q =>
    match q.2.state with
    | .InRoom r =>
      match mlookup s.rooms r with
      | some room => room.members.contains q.1
      | none => true
    | .RequestedJoin r =>
      match mlookup s.rooms r with
      | some room => room.join_requests.contains q.1
      | none => true
    | _ => true)

def sC4 : Server := ⟨4, 1, [(1, ⟨1, .RoomOwner 1⟩)], 1, [(1, ⟨1, 1, "d", [2], []⟩)]⟩

/-- Counterexample to C4 as stated ("for every server state"): in a state
where room 1 has the dead member 2, the owner's `LeaveRoom(1)` removes the
room and sets the owner's state to `Nowhere` before `close_room` fails
with `NoSuchUser` on the dead member — the returned message is an `Error`
yet the state has changed. -/
theorem C4_counterexample :
    Server.handle_request sC4 1 (.LeaveRoom 1) =
      some (⟨4, 1, [(1, ⟨1, .Nowhere⟩)], 1, []⟩, Response.error .NoSuchUser) ∧
    (⟨4, 1, [(1, ⟨1, .Nowhere⟩)], 1, []⟩ : Server) ≠ sC4 := by
  constructor
  · decide
  · decide

/-- C4 amended: in every *state-consistent* server state (members and
pending joiners of rooms are live users, stored ids match keys, and
`InRoom`/`RequestedJoin` users appear in the corresponding room lists — as
in every reachable state), if `handle_request` returns an `Error` message,
the server state is unchanged and the response carries no fan-out sends. -/
theorem C4_errors_pure (s : Server) (u : UserID) (req : Request) (s' : Server)
    (resp : Response) (e : Error)
    (hcons : consistentB s = true)
    (hreq : s.handle_request u req = some (s', resp))
    (herr : resp.returns = some (.Error e)) :
    s' = s ∧ resp.sends = [] := by
  unfold consistentB at hcons
  rw [Bool.and_eq_true, Bool.and_eq_true, Bool.and_eq_true] at hcons
  obtain ⟨⟨⟨hids, hrids⟩, hlive⟩, hstate⟩ := hcons
  have userId_eq : ∀ {x : Nat} {usr : User}, mlookup s.users x = some usr →
      usr.id = x := by
    intro x usr hx
    have h := List.all_eq_true.mp hids _ (mem_of_mlookup hx)
    simpa using h
  have roomId_eq : ∀ {x : Nat} {room : Room}, mlookup s.rooms x = some room →
      room.id = x := by
    intro x room hx
    have h := List.all_eq_true.mp hrids _ (mem_of_mlookup hx)
    simpa using h
  have live : ∀ {x : Nat} {room : Room}, mlookup s.rooms x = some room →
      ∀ m ∈ room.members ++ room.join_requests, (mlookup s.users m).isSome = true := by
    intro x room hx m hm
    have h := List.all_eq_true.mp hlive _ (mem_of_mlookup hx)
    exact List.all_eq_true.mp h _ hm
  have instate : ∀ {x : Nat} {usr : User} {rid : Nat} {room : Room},
      mlookup s.users x = some usr → usr.state = .InRoom rid →
      mlookup s.rooms rid = some room → x ∈ room.members := by
    intro x usr rid room hx hst hroom
    have h := List.all_eq_true.mp hstate _ (mem_of_mlookup hx)
    simp only [hst, hroom] at h
    simpa using h
  have reqstate : ∀ {x : Nat} {usr : User} {rid : Nat} {room : Room},
      mlookup s.users x = some usr → usr.state = .RequestedJoin rid →
      mlookup s.rooms rid = some room → x ∈ room.join_requests := by
    intro x usr rid room hx hst hroom
    have h := List.all_eq_true.mp hstate _ (mem_of_mlookup hx)
    simp only [hst, hroom] at h
    simpa using h
  cases req with
  | ListRooms =>
    simp only [Server.handle_request] at hreq
    obtain ⟨h1, h2⟩ := Prod.mk.injEq .. ▸ Option.some.inj hreq
    rw [← h2] at herr
    simp [Server.list_rooms, Response.returnsMessage] at herr
  | Ping n => exact absurd hreq (by simp [Server.handle_request])
  | SetOwner a b => exact absurd hreq (by simp [Server.handle_request])
  | Quit =>
    simp only [Server.handle_request] at hreq
    obtain ⟨h1, h2⟩ := Prod.mk.injEq .. ▸ Option.some.inj hreq
    rw [← h2] at herr
    simp [Response.empty] at herr
  | CreateRoom data =>
    simp only [Server.handle_request, Server.create_room] at hreq
    cases hnext : next_id s.last_room_id s.rooms with
    | none => simp [hnext] at hreq
    | some rid =>
      simp only [hnext] at hreq
      cases hu : mlookup s.users u with
      | none =>
        simp only [hu] at hreq
        simp only [Option.map_some'] at hreq
        obtain ⟨h1, h2⟩ := Prod.mk.injEq .. ▸ Option.some.inj hreq
        exact ⟨h1.symm, by rw [← h2]; rfl⟩
      | some user =>
        simp only [hu] at hreq
        cases hco : user.try_create_room rid data with
        | error e' =>
          simp only [hco] at hreq
          simp only [Option.map_some'] at hreq
          obtain ⟨h1, h2⟩ := Prod.mk.injEq .. ▸ Option.some.inj hreq
          exact ⟨h1.symm, by rw [← h2]; rfl⟩
        | ok pr =>
          simp only [hco] at hreq
          simp only [Option.map_some'] at hreq
          obtain ⟨h1, h2⟩ := Prod.mk.injEq .. ▸ Option.some.inj hreq
          rw [← h2] at herr
          simp [Response.ofResult, Response.returnsMessage] at herr
  | AskJoinRoom r msg =>
    simp only [Server.handle_request, Server.ask_join] at hreq
    cases hu : mlookup s.users u with
    | none =>
      simp only [hu] at hreq
      obtain ⟨h1, h2⟩ := Prod.mk.injEq .. ▸ Option.some.inj hreq
      exact ⟨h1.symm, by rw [← h2]; rfl⟩
    | some user =>
      simp only [hu] at hreq
      cases hr : mlookup s.rooms r with
      | none =>
        simp only [hr] at hreq
        obtain ⟨h1, h2⟩ := Prod.mk.injEq .. ▸ Option.some.inj hreq
        exact ⟨h1.symm, by rw [← h2]; rfl⟩
      | some room =>
        simp only [hr] at hreq
        cases hjr : user.try_join_room room with
        | error e' =>
          simp only [hjr] at hreq
          obtain ⟨h1, h2⟩ := Prod.mk.injEq .. ▸ Option.some.inj hreq
          exact ⟨h1.symm, by rw [← h2]; rfl⟩
        | ok pr =>
          simp only [hjr] at hreq
          obtain ⟨h1, h2⟩ := Prod.mk.injEq .. ▸ Option.some.inj hreq
          rw [← h2] at herr
          simp [Response.ofResult, Response.sendsTo] at herr
  | AcceptJoinRoom r o =>
    simp only [Server.handle_request, Server.accept_join] at hreq
    cases ho : mlookup s.users o with
    | none =>
      simp only [ho] at hreq
      obtain ⟨h1, h2⟩ := Prod.mk.injEq .. ▸ Option.some.inj hreq
      exact ⟨h1.symm, by rw [← h2]; rfl⟩
    | some other =>
      simp only [ho] at hreq
      cases hr : mlookup s.rooms r with
      | none =>
        simp only [hr] at hreq
        obtain ⟨h1, h2⟩ := Prod.mk.injEq .. ▸ Option.some.inj hreq
        exact ⟨h1.symm, by rw [← h2]; rfl⟩
      | some room =>
        simp only [hr] at hreq
        cases hexo : room.expect_owner u with
        | error e' =>
          simp only [hexo] at hreq
          obtain ⟨h1, h2⟩ := Prod.mk.injEq .. ▸ Option.some.inj hreq
          exact ⟨h1.symm, by rw [← h2]; rfl⟩
        | ok unit =>
          simp only [hexo] at hreq
          cases hacc : room.accept_join_request other with
          | error e' =>
            simp only [hacc] at hreq
            obtain ⟨h1, h2⟩ := Prod.mk.injEq .. ▸ Option.some.inj hreq
            exact ⟨h1.symm, by rw [← h2]; rfl⟩
          | ok pr =>
            simp only [hacc] at hreq
            obtain ⟨h1, h2⟩ := Prod.mk.injEq .. ▸ Option.some.inj hreq
            rw [← h2] at herr
            simp [Response.ofResult, Response.sendsTo] at herr
  | RejectJoinRoom r o reason =>
    simp only [Server.handle_request, Server.reject_join] at hreq
    cases ho : mlookup s.users o with
    | none =>
      simp only [ho] at hreq
      obtain ⟨h1, h2⟩ := Prod.mk.injEq .. ▸ Option.some.inj hreq
      exact ⟨h1.symm, by rw [← h2]; rfl⟩
    | some other =>
      simp only [ho] at hreq
      cases hr : mlookup s.rooms r with
      | none =>
        simp only [hr] at hreq
        obtain ⟨h1, h2⟩ := Prod.mk.injEq .. ▸ Option.some.inj hreq
        exact ⟨h1.symm, by rw [← h2]; rfl⟩
      | some room =>
        simp only [hr] at hreq
        cases hexo : room.expect_owner u with
        | error e' =>
          simp only [hexo] at hreq
          obtain ⟨h1, h2⟩ := Prod.mk.injEq .. ▸ Option.some.inj hreq
          exact ⟨h1.symm, by rw [← h2]; rfl⟩
        | ok unit =>
          simp only [hexo] at hreq
          cases hacc : room.cancel_join_request other with
          | error e' =>
            simp only [hacc] at hreq
            obtain ⟨h1, h2⟩ := Prod.mk.injEq .. ▸ Option.some.inj hreq
            exact ⟨h1.symm, by rw [← h2]; rfl⟩
          | ok pr =>
            simp only [hacc] at hreq
            obtain ⟨h1, h2⟩ := Prod.mk.injEq .. ▸ Option.some.inj hreq
            rw [← h2] at herr
            simp [Response.ofResult, Response.sendsTo] at herr
  | Send r payload =>
    simp only [Server.handle_request, Server.send] at hreq
    cases hr : mlookup s.rooms r with
    | none =>
      simp only [hr] at hreq
      obtain ⟨h1, h2⟩ := Prod.mk.injEq .. ▸ Option.some.inj hreq
      exact ⟨h1.symm, by rw [← h2]; rfl⟩
    | some room =>
      simp only [hr] at hreq
      by_cases hfo : u = room.owner_id
      · rw [if_pos hfo] at hreq
        obtain ⟨h1, h2⟩ := Prod.mk.injEq .. ▸ Option.some.inj hreq
        rw [← h2] at herr
        simp [Response.ofResult, Response.sends_all] at herr
      · rw [if_neg hfo] at hreq
        obtain ⟨h1, h2⟩ := Prod.mk.injEq .. ▸ Option.some.inj hreq
        rw [← h2] at herr
        simp [Response.ofResult, Response.sendsTo] at herr
  | SendTo r o payload =>
    simp only [Server.handle_request, Server.send_to] at hreq
    cases hr : mlookup s.rooms r with
    | none =>
      simp only [hr] at hreq
      obtain ⟨h1, h2⟩ := Prod.mk.injEq .. ▸ Option.some.inj hreq
      exact ⟨h1.symm, by rw [← h2]; rfl⟩
    | some room =>
      simp only [hr] at hreq
      cases hexo : room.expect_owner u with
      | error e' =>
        simp only [hexo] at hreq
        obtain ⟨h1, h2⟩ := Prod.mk.injEq .. ▸ Option.some.inj hreq
        exact ⟨h1.symm, by rw [← h2]; rfl⟩
      | ok unit =>
        simp only [hexo] at hreq
        cases hexm : room.expect_member o with
        | error e' =>
          simp only [hexm] at hreq
          obtain ⟨h1, h2⟩ := Prod.mk.injEq .. ▸ Option.some.inj hreq
          exact ⟨h1.symm, by rw [← h2]; rfl⟩
        | ok unit =>
          simp only [hexm] at hreq
          obtain ⟨h1, h2⟩ := Prod.mk.injEq .. ▸ Option.some.inj hreq
          rw [← h2] at herr
          simp [Response.ofResult, Response.sendsTo] at herr
  | EchoFrom r o payload =>
    simp only [Server.handle_request, Server.echo_from] at hreq
    cases hr : mlookup s.rooms r with
    | none =>
      simp only [hr] at hreq
      obtain ⟨h1, h2⟩ := Prod.mk.injEq .. ▸ Option.some.inj hreq
      exact ⟨h1.symm, by rw [← h2]; rfl⟩
    | some room =>
      simp only [hr] at hreq
      cases hexo : room.expect_owner u with
      | error e' =>
        simp only [hexo] at hreq
        obtain ⟨h1, h2⟩ := Prod.mk.injEq .. ▸ Option.some.inj hreq
        exact ⟨h1.symm, by rw [← h2]; rfl⟩
      | ok unit =>
        simp only [hexo] at hreq
        cases hexm : room.expect_member o with
        | error e' =>
          simp only [hexm] at hreq
          obtain ⟨h1, h2⟩ := Prod.mk.injEq .. ▸ Option.some.inj hreq
          exact ⟨h1.symm, by rw [← h2]; rfl⟩
        | ok unit =>
          simp only [hexm] at hreq
          obtain ⟨h1, h2⟩ := Prod.mk.injEq .. ▸ Option.some.inj hreq
          rw [← h2] at herr
          simp [Response.ofResult, Response.sends_all] at herr
  | LeaveRoom r =>
    simp only [Server.handle_request, Server.leave_room] at hreq
    cases hu : mlookup s.users u with
    | none =>
      simp only [hu] at hreq
      obtain ⟨h1, h2⟩ := Prod.mk.injEq .. ▸ Option.some.inj hreq
      exact ⟨h1.symm, by rw [← h2]; rfl⟩
    | some user =>
      simp only [hu] at hreq
      cases hr : mlookup s.rooms r with
      | none =>
        simp only [hr] at hreq
        obtain ⟨h1, h2⟩ := Prod.mk.injEq .. ▸ Option.some.inj hreq
        exact ⟨h1.symm, by rw [← h2]; rfl⟩
      | some room =>
        simp only [hr] at hreq
        have huid : user.id = u := userId_eq hu
        have hroomid : room.id = r := roomId_eq hr
        by_cases howner : room.owner_id = user.id
        · rw [if_pos howner] at hreq
          obtain ⟨us, hclose, _, _⟩ := close_room_ok s r room hr (live hr)
          rw [hclose] at hreq
          obtain ⟨h1, h2⟩ := Prod.mk.injEq .. ▸ Option.some.inj hreq
          rw [← h2] at herr
          simp [Response.ofResult, Response.sends_all] at herr
        · rw [if_neg howner] at hreq
          cases hst : user.state with
          | RoomOwner r' =>
            simp only [User.leave_room, hst] at hreq
            rw [mupdate_self _ hu, mupdate_self _ hr] at hreq
            obtain ⟨h1, h2⟩ := Prod.mk.injEq .. ▸ Option.some.inj hreq
            refine ⟨h1.symm.trans (by rfl), by rw [← h2]; rfl⟩
          | Nowhere =>
            simp only [User.leave_room, hst] at hreq
            rw [mupdate_self _ hu, mupdate_self _ hr] at hreq
            obtain ⟨h1, h2⟩ := Prod.mk.injEq .. ▸ Option.some.inj hreq
            refine ⟨h1.symm.trans (by rfl), by rw [← h2]; rfl⟩
          | InRoom rid =>
            by_cases hrid : rid = room.id
            · have hrr : rid = r := hrid.trans hroomid
              have hmemu : u ∈ room.members := instate hu (hrr ▸ hst) hr
              have hidx : (index_of room.members user.id).isSome = true := by
                rw [huid]
                exact index_of_isSome_of_mem hmemu
              obtain ⟨i, hi⟩ := Option.isSome_iff_exists.mp hidx
              have hnotowner : ¬ user.id = room.owner_id := fun e => howner e.symm
              simp only [User.leave_room, hst, if_pos hrid, Room.remove_user,
                if_neg hnotowner, hi] at hreq
              obtain ⟨h1, h2⟩ := Prod.mk.injEq .. ▸ Option.some.inj hreq
              rw [← h2] at herr
              simp [Response.ofResult, Response.sendsTo] at herr
            · simp only [User.leave_room, hst, if_neg hrid] at hreq
              rw [mupdate_self _ hu, mupdate_self _ hr] at hreq
              obtain ⟨h1, h2⟩ := Prod.mk.injEq .. ▸ Option.some.inj hreq
              refine ⟨h1.symm.trans (by rfl), by rw [← h2]; rfl⟩
          | RequestedJoin rid =>
            by_cases hrid : rid = room.id
            · have hrr : rid = r := hrid.trans hroomid
              have hmemu : u ∈ room.join_requests := reqstate hu (hrr ▸ hst) hr
              have hidx : (index_of room.join_requests user.id).isSome = true := by
                rw [huid]
                exact index_of_isSome_of_mem hmemu
              obtain ⟨i, hi⟩ := Option.isSome_iff_exists.mp hidx
              simp only [User.leave_room, hst, if_pos hrid, Room.cancel_join_request,
                hi] at hreq
              obtain ⟨h1, h2⟩ := Prod.mk.injEq .. ▸ Option.some.inj hreq
              rw [← h2] at herr
              simp [Response.ofResult, Response.sendsTo] at herr
            · simp only [User.leave_room, hst, if_neg hrid] at hreq
              rw [mupdate_self _ hu, mupdate_self _ hr] at hreq
              obtain ⟨h1, h2⟩ := Prod.mk.injEq .. ▸ Option.some.inj hreq
              refine ⟨h1.symm.trans (by rfl), by rw [← h2]; rfl⟩

/-- Witness for the amended C4: the empty server is consistent, and a
`LeaveRoom` for a nonexistent user errors with `NoSuchUser`, leaving the
state unchanged and sending nothing. -/
theorem C4_errors_pure_witness :
    Server.new 4 = Server.new 4 ∧ (Response.error Error.NoSuchUser).sends = [] :=
  C4_errors_pure (Server.new 4) 1 (.LeaveRoom 1) (Server.new 4)
    (Response.error .NoSuchUser) .NoSuchUser (by decide) (by decide) (by decide)

/-! ### C5: state-consistency of all reachable states -/

/-- The inductive invariant: the spec's I1/I2/I3/I4/I6 in canonical form.
Each clause quantifies over lookups, giving the exact user record for room
occupants respectively the exact room facts for user states. -/
structure Inv (s : Server) : Prop where
  usersNodup : (s.users.map Prod.fst).Nodup
  roomsNodup : (s.rooms.map Prod.fst).Nodup
  userId : ∀ {u : Nat} {usr : User}, mlookup s.users u = some usr → usr.id = u
  roomId : ∀ {r : Nat} {room : Room}, mlookup s.rooms r = some room → room.id = r
  owner_in : ∀ {r : Nat} {room : Room}, mlookup s.rooms r = some room →
    mlookup s.users room.owner_id = some ⟨room.owner_id, .RoomOwner r⟩
  owner_out : ∀ {u : Nat} {usr : User} {r : Nat}, mlookup s.users u = some usr →
    usr.state = .RoomOwner r →
    ∃ room, mlookup s.rooms r = some room ∧ room.owner_id = u
  mem_in : ∀ {r : Nat} {room : Room} {u : Nat}, mlookup s.rooms r = some room →
    u ∈ room.members → mlookup s.users u = some ⟨u, .InRoom r⟩
  mem_out : ∀ {u : Nat} {usr : User} {r : Nat}, mlookup s.users u = some usr →
    usr.state = .InRoom r →
    ∃ room, mlookup s.rooms r = some room ∧ u ∈ room.members
  req_in : ∀ {r : Nat} {room : Room} {u : Nat}, mlookup s.rooms r = some room →
    u ∈ room.join_requests → mlookup s.users u = some ⟨u, .RequestedJoin r⟩
  req_out : ∀ {u : Nat} {usr : User} {r : Nat}, mlookup s.users u = some usr →
    usr.state = .RequestedJoin r →
    ∃ room, mlookup s.rooms r = some room ∧ u ∈ room.join_requests
  memNodup : ∀ {r : Nat} {room : Room}, mlookup s.rooms r = some room →
    room.members.Nodup
  reqNodup : ∀ {r : Nat} {room : Room}, mlookup s.rooms r = some room →
    room.join_requests.Nodup

theorem Inv_init (mc : Nat) : Inv (Server.new mc) := by
  constructor
  · exact List.nodup_nil
  · exact List.nodup_nil
  · intro u usr h; cases h
  · intro r room h; cases h
  · intro r room h; cases h
  · intro u usr r h hst; cases h
  · intro r room m h hm; cases h
  · intro u usr r h hst; cases h
  · intro r room m h hm; cases h
  · intro u usr r h hst; cases h
  · intro r room h; cases h
  · intro r room h; cases h

/-- The state of any live occupant (member or pending joiner) of room `r`. -/
theorem occupant_state {s : Server} (hI : Inv s) {r : Nat} {room : Room} {m : Nat}
    (hr : mlookup s.rooms r = some room) (hm : m ∈ room.members ++ room.join_requests) :
    mlookup s.users m = some ⟨m, .InRoom r⟩ ∨
    mlookup s.users m = some ⟨m, .RequestedJoin r⟩ := by
  rcases List.mem_append.mp hm with h | h
  · exact Or.inl (hI.mem_in hr h)
  · exact Or.inr (hI.req_in hr h)

theorem occupant_isSome {s : Server} (hI : Inv s) {r : Nat} {room : Room}
    (hr : mlookup s.rooms r = some room) :
    ∀ m ∈ room.members ++ room.join_requests, (mlookup s.users m).isSome = true := by
  intro m hm
  rcases occupant_state hI hr hm with h | h <;> simp [h]

/-- The room owner is neither a member nor a pending joiner of any room. -/
theorem owner_not_occupant {s : Server} (hI : Inv s) {r r' : Nat} {room room' : Room}
    (hr : mlookup s.rooms r = some room) (hr' : mlookup s.rooms r' = some room') :
    room.owner_id ∉ room'.members ++ room'.join_requests := by
  intro hmem
  have how := hI.owner_in hr
  rcases occupant_state hI hr' hmem with h | h <;>
    (rw [how] at h; cases Option.some.inj h)

theorem Inv_add (s s' : Server) (r : Option UserID) (hI : Inv s)
    (h : s.add_user = some (s', r)) : Inv s' := by
  unfold Server.add_user at h
  by_cases hfull : s.users.length ≥ s.max_connections
  · rw [if_pos hfull] at h
    obtain ⟨h1, _⟩ := Prod.mk.injEq .. ▸ Option.some.inj h
    rw [← h1]; exact hI
  · rw [if_neg hfull] at h
    cases hnext : next_id s.last_user_id s.users with
    | none => rw [hnext] at h; cases h
    | some id =>
      rw [hnext] at h
      obtain ⟨h1, _⟩ := Prod.mk.injEq .. ▸ Option.some.inj h
      obtain ⟨hocc, _⟩ := nextIdGo_some hnext
      have hfree : mlookup s.users id = none := by
        cases hm : mlookup s.users id with
        | none => rfl
        | some v => rw [hm] at hocc; simp at hocc
      have hU : ∀ x, mlookup s'.users x =
          if id = x then some ⟨id, .Nowhere⟩ else mlookup s.users x := by
        intro x
        rw [← h1]
        simp [minsert, mlookup]
      have hR : s'.rooms = s.rooms := by rw [← h1]
      refine ⟨?_, ?_, ?_, ?_, ?_, ?_, ?_, ?_, ?_, ?_, ?_, ?_⟩
      · rw [← h1]
        simp only [minsert, List.map_cons, List.nodup_cons]
        exact ⟨(mlookup_eq_none_iff _ _).mp hfree, hI.usersNodup⟩
      · rw [hR]; exact hI.roomsNodup
      · intro x usr hx
        rw [hU x] at hx
        by_cases hix : id = x
        · rw [if_pos hix] at hx; cases Option.some.inj hx; exact hix
        · rw [if_neg hix] at hx; exact hI.userId hx
      · intro x room hx; rw [hR] at hx; exact hI.roomId hx
      · intro x room hx
        rw [hR] at hx
        have hown := hI.owner_in hx
        rw [hU]
        rw [if_neg (fun e => by rw [← e] at hown; rw [hfree] at hown; cases hown)]
        exact hown
      · intro x usr rr hx hst
        rw [hU x] at hx
        by_cases hix : id = x
        · rw [if_pos hix] at hx; cases Option.some.inj hx; cases hst
        · rw [if_neg hix] at hx
          obtain ⟨room, hroom, hown⟩ := hI.owner_out hx hst
          exact ⟨room, hR ▸ hroom, hown⟩
      · intro x room m hx hm
        rw [hR] at hx
        have hmem := hI.mem_in hx hm
        rw [hU]
        rw [if_neg (fun e => by rw [← e] at hmem; rw [hfree] at hmem; cases hmem)]
        exact hmem
      · intro x usr rr hx hst
        rw [hU x] at hx
        by_cases hix : id = x
        · rw [if_pos hix] at hx; cases Option.some.inj hx; cases hst
        · rw [if_neg hix] at hx
          obtain ⟨room, hroom, hm⟩ := hI.mem_out hx hst
          exact ⟨room, hR ▸ hroom, hm⟩
      · intro x room m hx hm
        rw [hR] at hx
        have hmem := hI.req_in hx hm
        rw [hU]
        rw [if_neg (fun e => by rw [← e] at hmem; rw [hfree] at hmem; cases hmem)]
        exact hmem
      · intro x usr rr hx hst
        rw [hU x] at hx
        by_cases hix : id = x
        · rw [if_pos hix] at hx; cases Option.some.inj hx; cases hst
        · rw [if_neg hix] at hx
          obtain ⟨room, hroom, hm⟩ := hI.req_out hx hst
          exact ⟨room, hR ▸ hroom, hm⟩
      · intro x room hx; rw [hR] at hx; exact hI.memNodup hx
      · intro x room hx; rw [hR] at hx; exact hI.reqNodup hx

/-- Invariant preservation for closing room `r`: the room is erased, its
owner's slot ends up deleted or `Nowhere`, every other occupant of `r` is
set to `Nowhere`, and everyone else is untouched. -/
theorem Inv_after_close (s0 : Server) (hI : Inv s0) {r : Nat} {room : Room}
    (hr : mlookup s0.rooms r = some room) (s' : Server)
    (hnodup : (s'.users.map Prod.fst).Nodup)
    (hR : s'.rooms = merase s0.rooms r)
    (hUo : mlookup s'.users room.owner_id = none ∨
      mlookup s'.users room.owner_id = some ⟨room.owner_id, .Nowhere⟩)
    (hU : ∀ x, x ≠ room.owner_id →
      mlookup s'.users x =
        if x ∈ room.members ++ room.join_requests then
          (mlookup s0.users x).map setNowhere
        else mlookup s0.users x) :
    Inv s' := by
  have hRlook : ∀ x, mlookup s'.rooms x = if r = x then none else mlookup s0.rooms x := by
    intro x; rw [hR, mlookup_merase]
  have howner := hI.owner_in hr
  refine ⟨hnodup, ?_, ?_, ?_, ?_, ?_, ?_, ?_, ?_, ?_, ?_, ?_⟩
  · rw [hR]; exact nodup_keys_merase _ _ hI.roomsNodup
  · intro x usr hx
    by_cases hxo : x = room.owner_id
    · subst hxo
      rcases hUo with h | h
      · rw [h] at hx; cases hx
      · rw [h] at hx; cases Option.some.inj hx; rfl
    · rw [hU x hxo] at hx
      by_cases hxl : x ∈ room.members ++ room.join_requests
      · rw [if_pos hxl] at hx
        cases hs0 : mlookup s0.users x with
        | none => rw [hs0] at hx; cases hx
        | some usr0 =>
          rw [hs0] at hx
          cases Option.some.inj hx
          simpa [setNowhere] using hI.userId hs0
      · rw [if_neg hxl] at hx
        exact hI.userId hx
  · intro x room' hx
    rw [hRlook x] at hx
    by_cases hrx : r = x
    · rw [if_pos hrx] at hx; cases hx
    · rw [if_neg hrx] at hx; exact hI.roomId hx
  · intro x room' hx
    rw [hRlook x] at hx
    by_cases hrx : r = x
    · rw [if_pos hrx] at hx; cases hx
    · rw [if_neg hrx] at hx
      have hown' := hI.owner_in hx
      have hne : room'.owner_id ≠ room.owner_id := by
        intro e
        rw [e, howner] at hown'
        cases Option.some.inj hown'
        exact hrx rfl
      have hnl : room'.owner_id ∉ room.members ++ room.join_requests := by
        intro hmem
        rcases occupant_state hI hr hmem with h | h <;>
          (rw [hown'] at h; cases Option.some.inj h)
      rw [hU _ hne, if_neg hnl]
      exact hown'
  · intro x usr rr hx hst
    by_cases hxo : x = room.owner_id
    · subst hxo
      rcases hUo with h | h
      · rw [h] at hx; cases hx
      · rw [h] at hx; cases Option.some.inj hx; cases hst
    · rw [hU x hxo] at hx
      by_cases hxl : x ∈ room.members ++ room.join_requests
      · rw [if_pos hxl] at hx
        cases hs0 : mlookup s0.users x with
        | none => rw [hs0] at hx; cases hx
        | some usr0 =>
          rw [hs0] at hx
          cases Option.some.inj hx
          cases hst
      · rw [if_neg hxl] at hx
        obtain ⟨room'', hroom'', hown''⟩ := hI.owner_out hx hst
        have hrr : r ≠ rr := by
          intro e
          rw [← e, hr] at hroom''
          cases Option.some.inj hroom''
          exact hxo hown''.symm
        exact ⟨room'', by rw [hRlook rr, if_neg hrr]; exact hroom'', hown''⟩
  · intro rr room' m hx hm
    rw [hRlook rr] at hx
    by_cases hrx : r = rr
    · rw [if_pos hrx] at hx; cases hx
    · rw [if_neg hrx] at hx
      have hmem := hI.mem_in hx hm
      have hne : m ≠ room.owner_id := by
        intro e
        rw [e, howner] at hmem
        cases Option.some.inj hmem
      have hnl : m ∉ room.members ++ room.join_requests := by
        intro hmem2
        rcases occupant_state hI hr hmem2 with h | h <;>
          (rw [hmem] at h; cases Option.some.inj h <;> exact hrx rfl)
      rw [hU _ hne, if_neg hnl]
      exact hmem
  · intro x usr rr hx hst
    by_cases hxo : x = room.owner_id
    · subst hxo
      rcases hUo with h | h
      · rw [h] at hx; cases hx
      · rw [h] at hx; cases Option.some.inj hx; cases hst
    · rw [hU x hxo] at hx
      by_cases hxl : x ∈ room.members ++ room.join_requests
      · rw [if_pos hxl] at hx
        cases hs0 : mlookup s0.users x with
        | none => rw [hs0] at hx; cases hx
        | some usr0 =>
          rw [hs0] at hx
          cases Option.some.inj hx
          cases hst
      · rw [if_neg hxl] at hx
        obtain ⟨room'', hroom'', hm''⟩ := hI.mem_out hx hst
        have hrr : r ≠ rr := by
          intro e
          rw [← e, hr] at hroom''
          cases Option.some.inj hroom''
          exact hxl (List.mem_append.mpr (Or.inl hm''))
        exact ⟨room'', by rw [hRlook rr, if_neg hrr]; exact hroom'', hm''⟩
  · intro rr room' m hx hm
    rw [hRlook rr] at hx
    by_cases hrx : r = rr
    · rw [if_pos hrx] at hx; cases hx
    · rw [if_neg hrx] at hx
      have hmem := hI.req_in hx hm
      have hne : m ≠ room.owner_id := by
        intro e
        rw [e, howner] at hmem
        cases Option.some.inj hmem
      have hnl : m ∉ room.members ++ room.join_requests := by
        intro hmem2
        rcases occupant_state hI hr hmem2 with h | h <;>
          (rw [hmem] at h; cases Option.some.inj h <;> exact hrx rfl)
      rw [hU _ hne, if_neg hnl]
      exact hmem
  · intro x usr rr hx hst
    by_cases hxo : x = room.owner_id
    · subst hxo
      rcases hUo with h | h
      · rw [h] at hx; cases hx
      · rw [h] at hx; cases Option.some.inj hx; cases hst
    · rw [hU x hxo] at hx
      by_cases hxl : x ∈ room.members ++ room.join_requests
      · rw [if_pos hxl] at hx
        cases hs0 : mlookup s0.users x with
        | none => rw [hs0] at hx; cases hx
        | some usr0 =>
          rw [hs0] at hx
          cases Option.some.inj hx
          cases hst
      · rw [if_neg hxl] at hx
        obtain ⟨room'', hroom'', hm''⟩ := hI.req_out hx hst
        have hrr : r ≠ rr := by
          intro e
          rw [← e, hr] at hroom''
          cases Option.some.inj hroom''
          exact hxl (List.mem_append.mpr (Or.inr hm''))
        exact ⟨room'', by rw [hRlook rr, if_neg hrr]; exact hroom'', hm''⟩
  · intro rr room' hx
    rw [hRlook rr] at hx
    by_cases hrx : r = rr
    · rw [if_pos hrx] at hx; cases hx
    · rw [if_neg hrx] at hx; exact hI.memNodup hx
  · intro rr room' hx
    rw [hRlook rr] at hx
    by_cases hrx : r = rr
    · rw [if_pos hrx] at hx; cases hx
    · rw [if_neg hrx] at hx; exact hI.reqNodup hx

/-- Invariant preservation for dropping the occupant `u` (a member or a
pending joiner) from room `r`: `u`'s slot becomes deleted or `Nowhere`,
room `r` keeps its id and owner and loses exactly `u` from its lists,
everything else stays. -/
theorem Inv_drop (s : Server) (hI : Inv s) (u : UserID) {r : Nat}
    {room room' : Room} {st0 : UserState}
    (hr : mlookup s.rooms r = some room)
    (hu : mlookup s.users u = some ⟨u, st0⟩)
    (hst0 : st0 = .InRoom r ∨ st0 = .RequestedJoin r)
    (s' : Server)
    (hnodup : (s'.users.map Prod.fst).Nodup)
    (hRnodup : (s'.rooms.map Prod.fst).Nodup)
    (huNew : mlookup s'.users u = none ∨ mlookup s'.users u = some ⟨u, .Nowhere⟩)
    (hUother : ∀ x, x ≠ u → mlookup s'.users x = mlookup s.users x)
    (hR : ∀ x, mlookup s'.rooms x = if r = x then some room' else mlookup s.rooms x)
    (hO : room'.owner_id = room.owner_id)
    (hId : room'.id = room.id)
    (hM : ∀ x, x ∈ room'.members → x ∈ room.members ∧ x ≠ u)
    (hM' : ∀ x, x ∈ room.members → x ≠ u → x ∈ room'.members)
    (hJ : ∀ x, x ∈ room'.join_requests → x ∈ room.join_requests ∧ x ≠ u)
    (hJ' : ∀ x, x ∈ room.join_requests → x ≠ u → x ∈ room'.join_requests)
    (hMnodup : room'.members.Nodup)
    (hJnodup : room'.join_requests.Nodup) :
    Inv s' := by
  have hune : ∀ {y : Nat} {sty : UserState},
      mlookup s.users y = some ⟨y, sty⟩ →
      (∀ rr, sty ≠ .InRoom rr) → (∀ rr, sty ≠ .RequestedJoin rr) → y ≠ u := by
    intro y sty hy hn1 hn2 e
    subst e
    rw [hu] at hy
    cases Option.some.inj hy
    rcases hst0 with h0 | h0
    · exact hn1 r h0
    · exact hn2 r h0
  have hone : ∀ {usr' : User}, mlookup s'.users u = some usr' →
      usr' = ⟨u, .Nowhere⟩ := by
    intro usr' h
    rcases huNew with hn | hn
    · rw [hn] at h; cases h
    · rw [hn] at h; exact (Option.some.inj h).symm
  refine ⟨hnodup, hRnodup, ?_, ?_, ?_, ?_, ?_, ?_, ?_, ?_, ?_, ?_⟩
  · intro x usr hx
    by_cases hxu : x = u
    · subst hxu
      rw [hone hx]
    · rw [hUother x hxu] at hx
      exact hI.userId hx
  · intro x roomx hx
    rw [hR x] at hx
    by_cases hrx : r = x
    · rw [if_pos hrx] at hx
      cases Option.some.inj hx
      rw [hId, hI.roomId hr, hrx]
    · rw [if_neg hrx] at hx
      exact hI.roomId hx
  · intro rr roomx hx
    rw [hR rr] at hx
    by_cases hrx : r = rr
    · rw [if_pos hrx] at hx
      cases Option.some.inj hx
      have howner := hI.owner_in hr
      have hou : room.owner_id ≠ u := by
        intro e
        rw [e, hu] at howner
        cases Option.some.inj howner
        rcases hst0 with h0 | h0 <;> cases h0
      rw [hO, hUother _ hou, ← hrx]
      exact howner
    · rw [if_neg hrx] at hx
      have howner := hI.owner_in hx
      have hou : roomx.owner_id ≠ u := by
        intro e
        rw [e, hu] at howner
        cases Option.some.inj howner
        rcases hst0 with h0 | h0 <;> cases h0
      rw [hUother _ hou]
      exact howner
  · intro x usr rr hx hst
    by_cases hxu : x = u
    · subst hxu
      rw [hone hx] at hst
      cases hst
    · rw [hUother x hxu] at hx
      obtain ⟨room2, hroom2, hown2⟩ := hI.owner_out hx hst
      by_cases hrr : r = rr
      · subst hrr
        rw [hr] at hroom2
        cases Option.some.inj hroom2
        exact ⟨room', by rw [hR r, if_pos rfl], by rw [hO]; exact hown2⟩
      · exact ⟨room2, by rw [hR rr, if_neg hrr]; exact hroom2, hown2⟩
  · intro rr roomx m hx hm
    rw [hR rr] at hx
    by_cases hrx : r = rr
    · rw [if_pos hrx] at hx
      cases Option.some.inj hx
      obtain ⟨hm0, hmu⟩ := hM m hm
      rw [hUother m hmu, ← hrx]
      exact hI.mem_in hr hm0
    · rw [if_neg hrx] at hx
      have hmem := hI.mem_in hx hm
      have hmu : m ≠ u := by
        intro e
        rw [e, hu] at hmem
        cases Option.some.inj hmem
        rcases hst0 with h0 | h0 <;> cases h0 <;> exact hrx rfl
      rw [hUother m hmu]
      exact hmem
  · intro x usr rr hx hst
    by_cases hxu : x = u
    · subst hxu
      rw [hone hx] at hst
      cases hst
    · rw [hUother x hxu] at hx
      obtain ⟨room2, hroom2, hm2⟩ := hI.mem_out hx hst
      by_cases hrr : r = rr
      · subst hrr
        rw [hr] at hroom2
        cases Option.some.inj hroom2
        exact ⟨room', by rw [hR r, if_pos rfl], hM' x hm2 hxu⟩
      · exact ⟨room2, by rw [hR rr, if_neg hrr]; exact hroom2, hm2⟩
  · intro rr roomx m hx hm
    rw [hR rr] at hx
    by_cases hrx : r = rr
    · rw [if_pos hrx] at hx
      cases Option.some.inj hx
      obtain ⟨hm0, hmu⟩ := hJ m hm
      rw [hUother m hmu, ← hrx]
      exact hI.req_in hr hm0
    · rw [if_neg hrx] at hx
      have hmem := hI.req_in hx hm
      have hmu : m ≠ u := by
        intro e
        rw [e, hu] at hmem
        cases Option.some.inj hmem
        rcases hst0 with h0 | h0 <;> cases h0 <;> exact hrx rfl
      rw [hUother m hmu]
      exact hmem
  · intro x usr rr hx hst
    by_cases hxu : x = u
    · subst hxu
      rw [hone hx] at hst
      cases hst
    · rw [hUother x hxu] at hx
      obtain ⟨room2, hroom2, hm2⟩ := hI.req_out hx hst
      by_cases hrr : r = rr
      · subst hrr
        rw [hr] at hroom2
        cases Option.some.inj hroom2
        exact ⟨room', by rw [hR r, if_pos rfl], hJ' x hm2 hxu⟩
      · exact ⟨room2, by rw [hR rr, if_neg hrr]; exact hroom2, hm2⟩
  · intro rr roomx hx
    rw [hR rr] at hx
    by_cases hrx : r = rr
    · rw [if_pos hrx] at hx
      cases Option.some.inj hx
      exact hMnodup
    · rw [if_neg hrx] at hx
      exact hI.memNodup hx
  · intro rr roomx hx
    rw [hR rr] at hx
    by_cases hrx : r = rr
    · rw [if_pos hrx] at hx
      cases Option.some.inj hx
      exact hJnodup
    · rw [if_neg hrx] at hx
      exact hI.reqNodup hx

/-- Invariant preservation for erasing a `Nowhere` user. -/
theorem Inv_erase_nowhere (s : Server) (hI : Inv s) (u : UserID)
    (hu : mlookup s.users u = some ⟨u, .Nowhere⟩) :
    Inv ⟨s.max_connections, s.last_user_id, merase s.users u, s.last_room_id, s.rooms⟩ := by
  have hU : ∀ x, mlookup (merase s.users u) x =
      if u = x then none else mlookup s.users x := fun x => mlookup_merase _ _ _
  have hneq : ∀ {y : Nat} {sty : UserState}, mlookup s.users y = some ⟨y, sty⟩ →
      sty ≠ .Nowhere → y ≠ u := by
    intro y sty hy hn e
    subst e
    rw [hu] at hy
    cases Option.some.inj hy
    exact hn rfl
  refine ⟨?_, hI.roomsNodup, ?_, hI.roomId, ?_, ?_, ?_, ?_, ?_, ?_, hI.memNodup,
    hI.reqNodup⟩
  · exact nodup_keys_merase _ _ hI.usersNodup
  · intro x usr hx
    rw [hU x] at hx
    by_cases hux : u = x
    · rw [if_pos hux] at hx; cases hx
    · rw [if_neg hux] at hx; exact hI.userId hx
  · intro rr room hx
    have howner := hI.owner_in hx
    have hne : room.owner_id ≠ u := hneq howner (by simp)
    rw [hU, if_neg (fun e => hne e.symm)]
    exact howner
  · intro x usr rr hx hst
    rw [hU x] at hx
    by_cases hux : u = x
    · rw [if_pos hux] at hx; cases hx
    · rw [if_neg hux] at hx; exact hI.owner_out hx hst
  · intro rr room m hx hm
    have hmem := hI.mem_in hx hm
    have hne : m ≠ u := hneq hmem (by simp)
    rw [hU, if_neg (fun e => hne e.symm)]
    exact hmem
  · intro x usr rr hx hst
    rw [hU x] at hx
    by_cases hux : u = x
    · rw [if_pos hux] at hx; cases hx
    · rw [if_neg hux] at hx; exact hI.mem_out hx hst
  · intro rr room m hx hm
    have hmem := hI.req_in hx hm
    have hne : m ≠ u := hneq hmem (by simp)
    rw [hU, if_neg (fun e => hne e.symm)]
    exact hmem
  · intro x usr rr hx hst
    rw [hU x] at hx
    by_cases hux : u = x
    · rw [if_pos hux] at hx; cases hx
    · rw [if_neg hux] at hx; exact hI.req_out hx hst

theorem Inv_remove (s : Server) (u : UserID) (hI : Inv s) : Inv (s.remove_user u).1 := by
  cases hu : mlookup s.users u with
  | none => simp only [Server.remove_user, hu]; exact hI
  | some user =>
    obtain ⟨uid, st⟩ := user
    have hid : uid = u := hI.userId hu
    subst hid
    cases st with
    | Nowhere =>
      simp only [Server.remove_user, hu]
      exact Inv_erase_nowhere s hI uid hu
    | RoomOwner r =>
      simp only [Server.remove_user, hu]
      obtain ⟨room, hr, hown⟩ := hI.owner_out hu rfl
      have hnotocc : uid ∉ room.members ++ room.join_requests :=
        hown ▸ owner_not_occupant hI hr hr
      have hmem1 : ∀ m ∈ room.members ++ room.join_requests,
          (mlookup (merase s.users uid) m).isSome = true := by
        intro m hm
        rw [mlookup_merase, if_neg (fun e => hnotocc (by rw [e]; exact hm))]
        exact occupant_isSome hI hr m hm
      obtain ⟨us, hclose, hkeys, hchar⟩ := close_room_ok
          ⟨s.max_connections, s.last_user_id, merase s.users uid, s.last_room_id,
           s.rooms⟩ r room hr hmem1
      rw [hclose]
      apply Inv_after_close s hI hr
      · show (us.map Prod.fst).Nodup
        rw [hkeys]
        exact nodup_keys_merase _ _ hI.usersNodup
      · rfl
      · left
        have h := hchar room.owner_id
        rw [if_pos (Or.inr rfl)] at h
        simp only at h
        rw [h, hown, mlookup_merase, if_pos rfl]
        rfl
      · intro x hxo
        have h := hchar x
        simp only at h
        have hx1 : mlookup (merase s.users uid) x = mlookup s.users x := by
          rw [mlookup_merase, if_neg (fun e => hxo (hown.trans e).symm)]
        by_cases hxl : x ∈ room.members ++ room.join_requests
        · rw [if_pos (Or.inl hxl)] at h
          rw [h, hx1, if_pos hxl]
        · rw [if_neg (by
            rintro (h1 | h2)
            · exact hxl h1
            · exact hxo h2)] at h
          rw [h, hx1, if_neg hxl]
    | InRoom r =>
      simp only [Server.remove_user, hu]
      obtain ⟨room, hr, hmem⟩ := hI.mem_out hu rfl
      have hou : room.owner_id ≠ uid := by
        have howner := hI.owner_in hr
        intro e
        rw [e, hu] at howner
        cases Option.some.inj howner
      have hou' : ¬ (uid = room.owner_id) := fun e => hou e.symm
      obtain ⟨i, hi⟩ := Option.isSome_iff_exists.mp (index_of_isSome_of_mem hmem)
      obtain ⟨hilen, _⟩ := index_of_spec hi
      simp only [hr, Room.remove_user, if_neg hou', hi]
      apply Inv_drop s hI uid hr hu (Or.inl rfl)
      · exact nodup_keys_merase _ _ hI.usersNodup
      · exact nodup_keys_mupdate _ _ _ hI.roomsNodup
      · left
        exact mlookup_merase _ _ _ |>.trans (if_pos rfl)
      · intro x hxu
        exact mlookup_merase _ _ _ |>.trans (if_neg (fun e => hxu e.symm))
      · intro x
        by_cases hrx : r = x
        · subst hrx
          rw [if_pos rfl]
          exact mlookup_mupdate_self _ _ hr
        · rw [if_neg hrx]
          exact mlookup_mupdate_ne _ _ hrx
      · rfl
      · rfl
      · intro x hx
        have := (mem_swapRemove_iff (hI.memNodup hr) hi x).mp hx
        exact ⟨this.2, this.1⟩
      · intro x hx hxu
        exact (mem_swapRemove_iff (hI.memNodup hr) hi x).mpr ⟨hxu, hx⟩
      · intro x hx
        refine ⟨hx, ?_⟩
        intro e
        subst e
        have := hI.req_in hr hx
        rw [hu] at this
        cases Option.some.inj this
      · intro x hx _
        exact hx
      · exact nodup_swapRemove (hI.memNodup hr) hilen
      · simpa using hI.reqNodup hr
    | RequestedJoin r =>
      simp only [Server.remove_user, hu]
      obtain ⟨room, hr, hmem⟩ := hI.req_out hu rfl
      obtain ⟨i, hi⟩ := Option.isSome_iff_exists.mp (index_of_isSome_of_mem hmem)
      obtain ⟨hilen, _⟩ := index_of_spec hi
      simp only [hr, Room.cancel_join_request, hi]
      apply Inv_drop s hI uid hr hu (Or.inr rfl)
      · exact nodup_keys_merase _ _ hI.usersNodup
      · exact nodup_keys_mupdate _ _ _ hI.roomsNodup
      · left
        exact mlookup_merase _ _ _ |>.trans (if_pos rfl)
      · intro x hxu
        exact mlookup_merase _ _ _ |>.trans (if_neg (fun e => hxu e.symm))
      · intro x
        by_cases hrx : r = x
        · subst hrx
          rw [if_pos rfl]
          exact mlookup_mupdate_self _ _ hr
        · rw [if_neg hrx]
          exact mlookup_mupdate_ne _ _ hrx
      · rfl
      · rfl
      · intro x hx
        refine ⟨hx, ?_⟩
        intro e
        subst e
        have := hI.mem_in hr hx
        rw [hu] at this
        cases Option.some.inj this
      · intro x hx _
        exact hx
      · intro x hx
        have := (mem_swapRemove_iff (hI.reqNodup hr) hi x).mp hx
        exact ⟨this.2, this.1⟩
      · intro x hx hxu
        exact (mem_swapRemove_iff (hI.reqNodup hr) hi x).mpr ⟨hxu, hx⟩
      · simpa using hI.memNodup hr
      · exact nodup_swapRemove (hI.reqNodup hr) hilen

/-- A user in state `Nowhere` is in no room list and owns no room. -/
theorem nowhere_not_occupant {s : Server} (hI : Inv s) {u : UserID}
    (hu : mlookup s.users u = some ⟨u, .Nowhere⟩) {rr : Nat} {roomx : Room}
    (hrr : mlookup s.rooms rr = some roomx) :
    roomx.owner_id ≠ u ∧ u ∉ roomx.members ∧ u ∉ roomx.join_requests := by
  refine ⟨?_, ?_, ?_⟩
  · intro e
    have h := hI.owner_in hrr
    rw [e, hu] at h
    cases Option.some.inj h
  · intro hm
    have h := hI.mem_in hrr hm
    rw [hu] at h
    cases Option.some.inj h
  · intro hm
    have h := hI.req_in hrr hm
    rw [hu] at h
    cases Option.some.inj h

/-- Invariant preservation for `create_room`: a `Nowhere` user becomes the
owner of a freshly allocated empty room. -/
theorem Inv_create (s : Server) (hI : Inv s) (u : UserID) {rid : Nat}
    (hu : mlookup s.users u = some ⟨u, .Nowhere⟩)
    (hfree : mlookup s.rooms rid = none) (data : String) :
    Inv ⟨s.max_connections, s.last_user_id,
         mupdate s.users u ⟨u, .RoomOwner rid⟩,
         rid,
         minsert s.rooms rid (Room.new rid u data)⟩ := by
  have hU : ∀ x, mlookup (mupdate s.users u ⟨u, .RoomOwner rid⟩) x =
      if x = u then some ⟨u, .RoomOwner rid⟩ else mlookup s.users x := by
    intro x
    by_cases hx : x = u
    · subst hx
      rw [if_pos rfl]
      exact mlookup_mupdate_self _ _ hu
    · rw [if_neg hx]
      exact mlookup_mupdate_ne _ _ (fun e => hx e.symm)
  have hR : ∀ x, mlookup (minsert s.rooms rid (Room.new rid u data)) x =
      if rid = x then some (Room.new rid u data) else mlookup s.rooms x :=
    fun x => mlookup_minsert _ _ _ _
  refine ⟨?_, ?_, ?_, ?_, ?_, ?_, ?_, ?_, ?_, ?_, ?_, ?_⟩
  · exact nodup_keys_mupdate _ _ _ hI.usersNodup
  · simp only [minsert, List.map_cons, List.nodup_cons]
    exact ⟨(mlookup_eq_none_iff _ _).mp hfree, hI.roomsNodup⟩
  · intro x usr hx
    rw [hU x] at hx
    by_cases hxu : x = u
    · rw [if_pos hxu] at hx; cases Option.some.inj hx; exact hxu.symm
    · rw [if_neg hxu] at hx; exact hI.userId hx
  · intro x roomx hx
    rw [hR x] at hx
    by_cases hrx : rid = x
    · rw [if_pos hrx] at hx; cases Option.some.inj hx; exact hrx
    · rw [if_neg hrx] at hx; exact hI.roomId hx
  · intro rr roomx hx
    rw [hR rr] at hx
    by_cases hrx : rid = rr
    · rw [if_pos hrx] at hx
      cases Option.some.inj hx
      subst hrx
      have h : mlookup (mupdate s.users u ⟨u, .RoomOwner rid⟩) u =
          some ⟨u, .RoomOwner rid⟩ := by rw [hU u, if_pos rfl]
      exact h
    · rw [if_neg hrx] at hx
      have howner := hI.owner_in hx
      have hne : roomx.owner_id ≠ u := (nowhere_not_occupant hI hu hx).1
      rw [hU, if_neg hne]
      exact howner
  · intro x usr rr hx hst
    rw [hU x] at hx
    by_cases hxu : x = u
    · rw [if_pos hxu] at hx
      cases Option.some.inj hx
      cases hst
      exact ⟨Room.new rid u data, by rw [hR, if_pos rfl], by rw [hxu]; rfl⟩
    · rw [if_neg hxu] at hx
      obtain ⟨room2, hroom2, hown2⟩ := hI.owner_out hx hst
      have hne : rid ≠ rr := by
        intro e
        rw [← e, hfree] at hroom2
        cases hroom2
      exact ⟨room2, by rw [hR rr, if_neg hne]; exact hroom2, hown2⟩
  · intro rr roomx m hx hm
    rw [hR rr] at hx
    by_cases hrx : rid = rr
    · rw [if_pos hrx] at hx
      cases Option.some.inj hx
      simp [Room.new] at hm
    · rw [if_neg hrx] at hx
      have hmem := hI.mem_in hx hm
      have hne : m ≠ u := by
        intro e
        rw [e, hu] at hmem
        cases Option.some.inj hmem
      rw [hU, if_neg hne]
      exact hmem
  · intro x usr rr hx hst
    rw [hU x] at hx
    by_cases hxu : x = u
    · rw [if_pos hxu] at hx; cases Option.some.inj hx; cases hst
    · rw [if_neg hxu] at hx
      obtain ⟨room2, hroom2, hm2⟩ := hI.mem_out hx hst
      have hne : rid ≠ rr := by
        intro e
        rw [← e, hfree] at hroom2
        cases hroom2
      exact ⟨room2, by rw [hR rr, if_neg hne]; exact hroom2, hm2⟩
  · intro rr roomx m hx hm
    rw [hR rr] at hx
    by_cases hrx : rid = rr
    · rw [if_pos hrx] at hx
      cases Option.some.inj hx
      simp [Room.new] at hm
    · rw [if_neg hrx] at hx
      have hmem := hI.req_in hx hm
      have hne : m ≠ u := by
        intro e
        rw [e, hu] at hmem
        cases Option.some.inj hmem
      rw [hU, if_neg hne]
      exact hmem
  · intro x usr rr hx hst
    rw [hU x] at hx
    by_cases hxu : x = u
    · rw [if_pos hxu] at hx; cases Option.some.inj hx; cases hst
    · rw [if_neg hxu] at hx
      obtain ⟨room2, hroom2, hm2⟩ := hI.req_out hx hst
      have hne : rid ≠ rr := by
        intro e
        rw [← e, hfree] at hroom2
        cases hroom2
      exact ⟨room2, by rw [hR rr, if_neg hne]; exact hroom2, hm2⟩
  · intro rr roomx hx
    rw [hR rr] at hx
    by_cases hrx : rid = rr
    · rw [if_pos hrx] at hx; cases Option.some.inj hx; exact List.nodup_nil
    · rw [if_neg hrx] at hx; exact hI.memNodup hx
  · intro rr roomx hx
    rw [hR rr] at hx
    by_cases hrx : rid = rr
    · rw [if_pos hrx] at hx; cases Option.some.inj hx; exact List.nodup_nil
    · rw [if_neg hrx] at hx; exact hI.reqNodup hx

/-- Invariant preservation for `ask_join`: a `Nowhere` user is appended to
room `r`'s join requests and enters state `RequestedJoin(r)`. -/
theorem Inv_ask (s : Server) (hI : Inv s) (u : UserID) {r : Nat} {room : Room}
    (hu : mlookup s.users u = some ⟨u, .Nowhere⟩)
    (hr : mlookup s.rooms r = some room) :
    Inv ⟨s.max_connections, s.last_user_id,
         mupdate s.users u ⟨u, .RequestedJoin r⟩,
         s.last_room_id,
         mupdate s.rooms r
           { room with join_requests := room.join_requests ++ [u] }⟩ := by
  have hU : ∀ x, mlookup (mupdate s.users u ⟨u, .RequestedJoin r⟩) x =
      if x = u then some ⟨u, .RequestedJoin r⟩ else mlookup s.users x := by
    intro x
    by_cases hx : x = u
    · subst hx
      rw [if_pos rfl]
      exact mlookup_mupdate_self _ _ hu
    · rw [if_neg hx]
      exact mlookup_mupdate_ne _ _ (fun e => hx e.symm)
  have hR : ∀ x, mlookup (mupdate s.rooms r
        { room with join_requests := room.join_requests ++ [u] }) x =
      if r = x then some { room with join_requests := room.join_requests ++ [u] }
      else mlookup s.rooms x := by
    intro x
    by_cases hrx : r = x
    · subst hrx; rw [if_pos rfl]; exact mlookup_mupdate_self _ _ hr
    · rw [if_neg hrx]; exact mlookup_mupdate_ne _ _ hrx
  obtain ⟨hno, hnm, hnj⟩ := nowhere_not_occupant hI hu hr
  refine ⟨?_, ?_, ?_, ?_, ?_, ?_, ?_, ?_, ?_, ?_, ?_, ?_⟩
  · exact nodup_keys_mupdate _ _ _ hI.usersNodup
  · exact nodup_keys_mupdate _ _ _ hI.roomsNodup
  · intro x usr hx
    rw [hU x] at hx
    by_cases hxu : x = u
    · rw [if_pos hxu] at hx; cases Option.some.inj hx; exact hxu.symm
    · rw [if_neg hxu] at hx; exact hI.userId hx
  · intro x roomx hx
    rw [hR x] at hx
    by_cases hrx : r = x
    · rw [if_pos hrx] at hx
      cases Option.some.inj hx
      have h : room.id = r := hI.roomId hr
      rw [← hrx]
      exact h
    · rw [if_neg hrx] at hx; exact hI.roomId hx
  · intro rr roomx hx
    rw [hR rr] at hx
    by_cases hrx : r = rr
    · rw [if_pos hrx] at hx
      cases Option.some.inj hx
      subst hrx
      have h : mlookup (mupdate s.users u ⟨u, .RequestedJoin r⟩) room.owner_id =
          some ⟨room.owner_id, .RoomOwner r⟩ := by
        rw [hU, if_neg hno]
        exact hI.owner_in hr
      exact h
    · rw [if_neg hrx] at hx
      have howner := hI.owner_in hx
      rw [hU, if_neg (nowhere_not_occupant hI hu hx).1]
      exact howner
  · intro x usr rr hx hst
    rw [hU x] at hx
    by_cases hxu : x = u
    · rw [if_pos hxu] at hx; cases Option.some.inj hx; cases hst
    · rw [if_neg hxu] at hx
      obtain ⟨room2, hroom2, hown2⟩ := hI.owner_out hx hst
      by_cases hrr : r = rr
      · subst hrr
        rw [hr] at hroom2
        cases Option.some.inj hroom2
        exact ⟨{ room with join_requests := room.join_requests ++ [u] },
          by rw [hR r, if_pos rfl], hown2⟩
      · exact ⟨room2, by rw [hR rr, if_neg hrr]; exact hroom2, hown2⟩
  · intro rr roomx m hx hm
    rw [hR rr] at hx
    by_cases hrx : r = rr
    · rw [if_pos hrx] at hx
      cases Option.some.inj hx
      simp only at hm
      have hmem := hI.mem_in hr hm
      have hne : m ≠ u := by
        intro e
        rw [e, hu] at hmem
        cases Option.some.inj hmem
      rw [hU, if_neg hne, ← hrx]
      exact hmem
    · rw [if_neg hrx] at hx
      have hmem := hI.mem_in hx hm
      have hne : m ≠ u := by
        intro e
        rw [e, hu] at hmem
        cases Option.some.inj hmem
      rw [hU, if_neg hne]
      exact hmem
  · intro x usr rr hx hst
    rw [hU x] at hx
    by_cases hxu : x = u
    · rw [if_pos hxu] at hx; cases Option.some.inj hx; cases hst
    · rw [if_neg hxu] at hx
      obtain ⟨room2, hroom2, hm2⟩ := hI.mem_out hx hst
      by_cases hrr : r = rr
      · subst hrr
        rw [hr] at hroom2
        cases Option.some.inj hroom2
        exact ⟨{ room with join_requests := room.join_requests ++ [u] },
          by rw [hR r, if_pos rfl], hm2⟩
      · exact ⟨room2, by rw [hR rr, if_neg hrr]; exact hroom2, hm2⟩
  · intro rr roomx m hx hm
    rw [hR rr] at hx
    by_cases hrx : r = rr
    · rw [if_pos hrx] at hx
      cases Option.some.inj hx
      simp only at hm
      rcases List.mem_append.mp hm with hm | hm
      · have hmem := hI.req_in hr hm
        have hne : m ≠ u := by
          intro e
          rw [e, hu] at hmem
          cases Option.some.inj hmem
        rw [hU, if_neg hne, ← hrx]
        exact hmem
      · have hmu : m = u := by simpa using hm
        rw [hU, if_pos hmu, hmu, ← hrx]
    · rw [if_neg hrx] at hx
      have hmem := hI.req_in hx hm
      have hne : m ≠ u := by
        intro e
        rw [e, hu] at hmem
        cases Option.some.inj hmem
      rw [hU, if_neg hne]
      exact hmem
  · intro x usr rr hx hst
    rw [hU x] at hx
    by_cases hxu : x = u
    · rw [if_pos hxu] at hx
      cases Option.some.inj hx
      cases hst
      refine ⟨{ room with join_requests := room.join_requests ++ [u] },
        by rw [hR r, if_pos rfl], ?_⟩
      simp [hxu]
    · rw [if_neg hxu] at hx
      obtain ⟨room2, hroom2, hm2⟩ := hI.req_out hx hst
      by_cases hrr : r = rr
      · subst hrr
        rw [hr] at hroom2
        cases Option.some.inj hroom2
        exact ⟨{ room with join_requests := room.join_requests ++ [u] },
          by rw [hR r, if_pos rfl], by simp [hm2]⟩
      · exact ⟨room2, by rw [hR rr, if_neg hrr]; exact hroom2, hm2⟩
  · intro rr roomx hx
    rw [hR rr] at hx
    by_cases hrx : r = rr
    · rw [if_pos hrx] at hx
      cases Option.some.inj hx
      simpa using hI.memNodup hr
    · rw [if_neg hrx] at hx; exact hI.memNodup hx
  · intro rr roomx hx
    rw [hR rr] at hx
    by_cases hrx : r = rr
    · rw [if_pos hrx] at hx
      cases Option.some.inj hx
      show (room.join_requests ++ [u]).Nodup
      rw [(List.perm_append_singleton u room.join_requests).nodup_iff,
        List.nodup_cons]
      exact ⟨hnj, hI.reqNodup hr⟩
    · rw [if_neg hrx] at hx; exact hI.reqNodup hx

/-- Invariant preservation for `accept_join`: pending joiner `o` of room
`r` moves from the join requests to the members and enters `InRoom(r)`. -/
theorem Inv_accept (s : Server) (hI : Inv s) (o : UserID) {r : Nat} {room : Room}
    {i : Nat}
    (ho : mlookup s.users o = some ⟨o, .RequestedJoin r⟩)
    (hr : mlookup s.rooms r = some room)
    (hi : index_of room.join_requests o = some i) :
    Inv ⟨s.max_connections, s.last_user_id,
         mupdate s.users o ⟨o, .InRoom r⟩,
         s.last_room_id,
         mupdate s.rooms r
           { room with members := room.members ++ [o],
                       join_requests := swapRemove room.join_requests i }⟩ := by
  obtain ⟨hilen, _⟩ := index_of_spec hi
  have hnm : o ∉ room.members := by
    intro hm
    have h := hI.mem_in hr hm
    rw [ho] at h
    cases Option.some.inj h
  have hno : room.owner_id ≠ o := by
    intro e
    have h := hI.owner_in hr
    rw [e, ho] at h
    cases Option.some.inj h
  have hU : ∀ x, mlookup (mupdate s.users o ⟨o, .InRoom r⟩) x =
      if x = o then some ⟨o, .InRoom r⟩ else mlookup s.users x := by
    intro x
    by_cases hx : x = o
    · subst hx
      rw [if_pos rfl]
      exact mlookup_mupdate_self _ _ ho
    · rw [if_neg hx]
      exact mlookup_mupdate_ne _ _ (fun e => hx e.symm)
  have hR : ∀ x, mlookup (mupdate s.rooms r
        { room with members := room.members ++ [o],
                    join_requests := swapRemove room.join_requests i }) x =
      if r = x then
        some { room with members := room.members ++ [o],
                         join_requests := swapRemove room.join_requests i }
      else mlookup s.rooms x := by
    intro x
    by_cases hrx : r = x
    · subst hrx; rw [if_pos rfl]; exact mlookup_mupdate_self _ _ hr
    · rw [if_neg hrx]; exact mlookup_mupdate_ne _ _ hrx
  have hswap := mem_swapRemove_iff (hI.reqNodup hr) hi
  refine ⟨?_, ?_, ?_, ?_, ?_, ?_, ?_, ?_, ?_, ?_, ?_, ?_⟩
  · exact nodup_keys_mupdate _ _ _ hI.usersNodup
  · exact nodup_keys_mupdate _ _ _ hI.roomsNodup
  · intro x usr hx
    rw [hU x] at hx
    by_cases hxu : x = o
    · rw [if_pos hxu] at hx; cases Option.some.inj hx; exact hxu.symm
    · rw [if_neg hxu] at hx; exact hI.userId hx
  · intro x roomx hx
    rw [hR x] at hx
    by_cases hrx : r = x
    · rw [if_pos hrx] at hx
      cases Option.some.inj hx
      have h : room.id = r := hI.roomId hr
      rw [← hrx]
      exact h
    · rw [if_neg hrx] at hx; exact hI.roomId hx
  · intro rr roomx hx
    rw [hR rr] at hx
    by_cases hrx : r = rr
    · rw [if_pos hrx] at hx
      cases Option.some.inj hx
      subst hrx
      have h : mlookup (mupdate s.users o ⟨o, .InRoom r⟩) room.owner_id =
          some ⟨room.owner_id, .RoomOwner r⟩ := by
        rw [hU, if_neg hno]
        exact hI.owner_in hr
      exact h
    · rw [if_neg hrx] at hx
      have howner := hI.owner_in hx
      have hne : roomx.owner_id ≠ o := by
        intro e
        rw [e, ho] at howner
        cases Option.some.inj howner
      rw [hU, if_neg hne]
      exact howner
  · intro x usr rr hx hst
    rw [hU x] at hx
    by_cases hxu : x = o
    · rw [if_pos hxu] at hx; cases Option.some.inj hx; cases hst
    · rw [if_neg hxu] at hx
      obtain ⟨room2, hroom2, hown2⟩ := hI.owner_out hx hst
      by_cases hrr : r = rr
      · subst hrr
        rw [hr] at hroom2
        cases Option.some.inj hroom2
        exact ⟨⟨room.id, room.owner_id, room.data, room.members ++ [o],
          swapRemove room.join_requests i⟩, by rw [hR r, if_pos rfl], hown2⟩
      · exact ⟨room2, by rw [hR rr, if_neg hrr]; exact hroom2, hown2⟩
  · intro rr roomx m hx hm
    rw [hR rr] at hx
    by_cases hrx : r = rr
    · rw [if_pos hrx] at hx
      cases Option.some.inj hx
      subst hrx
      rcases List.mem_append.mp hm with hm | hm
      · have hmem := hI.mem_in hr hm
        have hne : m ≠ o := by
          intro e
          rw [e, ho] at hmem
          cases Option.some.inj hmem
        rw [hU, if_neg hne]
        exact hmem
      · have hmo : m = o := by simpa using hm
        rw [hU, if_pos hmo, hmo]
    · rw [if_neg hrx] at hx
      have hmem := hI.mem_in hx hm
      have hne : m ≠ o := by
        intro e
        rw [e, ho] at hmem
        cases Option.some.inj hmem
      rw [hU, if_neg hne]
      exact hmem
  · intro x usr rr hx hst
    rw [hU x] at hx
    by_cases hxu : x = o
    · rw [if_pos hxu] at hx
      cases Option.some.inj hx
      cases hst
      refine ⟨⟨room.id, room.owner_id, room.data, room.members ++ [o],
        swapRemove room.join_requests i⟩, by rw [hR r, if_pos rfl], ?_⟩
      simp [hxu]
    · rw [if_neg hxu] at hx
      obtain ⟨room2, hroom2, hm2⟩ := hI.mem_out hx hst
      by_cases hrr : r = rr
      · subst hrr
        rw [hr] at hroom2
        cases Option.some.inj hroom2
        exact ⟨⟨room.id, room.owner_id, room.data, room.members ++ [o],
          swapRemove room.join_requests i⟩, by rw [hR r, if_pos rfl],
          by simp [hm2]⟩
      · exact ⟨room2, by rw [hR rr, if_neg hrr]; exact hroom2, hm2⟩
  · intro rr roomx m hx hm
    rw [hR rr] at hx
    by_cases hrx : r = rr
    · rw [if_pos hrx] at hx
      cases Option.some.inj hx
      subst hrx
      have hm' : m ∈ swapRemove room.join_requests i := hm
      obtain ⟨hne, hmem0⟩ := (hswap m).mp hm'
      have hmem := hI.req_in hr hmem0
      rw [hU, if_neg hne]
      exact hmem
    · rw [if_neg hrx] at hx
      have hmem := hI.req_in hx hm
      have hne : m ≠ o := by
        intro e
        rw [e, ho] at hmem
        cases Option.some.inj hmem
        exact hrx rfl
      rw [hU, if_neg hne]
      exact hmem
  · intro x usr rr hx hst
    rw [hU x] at hx
    by_cases hxu : x = o
    · rw [if_pos hxu] at hx; cases Option.some.inj hx; cases hst
    · rw [if_neg hxu] at hx
      obtain ⟨room2, hroom2, hm2⟩ := hI.req_out hx hst
      by_cases hrr : r = rr
      · subst hrr
        rw [hr] at hroom2
        cases Option.some.inj hroom2
        refine ⟨⟨room.id, room.owner_id, room.data, room.members ++ [o],
          swapRemove room.join_requests i⟩, by rw [hR r, if_pos rfl], ?_⟩
        show x ∈ swapRemove room.join_requests i
        exact (hswap x).mpr ⟨hxu, hm2⟩
      · exact ⟨room2, by rw [hR rr, if_neg hrr]; exact hroom2, hm2⟩
  · intro rr roomx hx
    rw [hR rr] at hx
    by_cases hrx : r = rr
    · rw [if_pos hrx] at hx
      cases Option.some.inj hx
      show (room.members ++ [o]).Nodup
      rw [(List.perm_append_singleton o room.members).nodup_iff, List.nodup_cons]
      exact ⟨hnm, hI.memNodup hr⟩
    · rw [if_neg hrx] at hx; exact hI.memNodup hx
  · intro rr roomx hx
    rw [hR rr] at hx
    by_cases hrx : r = rr
    · rw [if_pos hrx] at hx
      cases Option.some.inj hx
      show (swapRemove room.join_requests i).Nodup
      exact nodup_swapRemove (hI.reqNodup hr) hilen
    · rw [if_neg hrx] at hx; exact hI.reqNodup hx

theorem mem_of_index_of_some {l : List Nat} {v i : Nat}
    (h : index_of l v = some i) : v ∈ l := by
  by_contra hn
  rw [(index_of_eq_none_iff l v).mpr hn] at h
  cases h

theorem Inv_handle (s s' : Server) (u : UserID) (req : Request) (resp : Response)
    (hI : Inv s) (hreq : s.handle_request u req = some (s', resp)) : Inv s' := by
  cases req with
  | ListRooms =>
    simp only [Server.handle_request] at hreq
    obtain ⟨h1, _⟩ := Prod.mk.injEq .. ▸ Option.some.inj hreq
    rw [← h1]; exact hI
  | Ping n => exact absurd hreq (by simp [Server.handle_request])
  | SetOwner a b => exact absurd hreq (by simp [Server.handle_request])
  | Quit =>
    simp only [Server.handle_request] at hreq
    obtain ⟨h1, _⟩ := Prod.mk.injEq .. ▸ Option.some.inj hreq
    rw [← h1]; exact hI
  | Send r payload =>
    simp only [Server.handle_request] at hreq
    obtain ⟨h1, _⟩ := Prod.mk.injEq .. ▸ Option.some.inj hreq
    rw [← h1]; exact hI
  | SendTo r o payload =>
    simp only [Server.handle_request] at hreq
    obtain ⟨h1, _⟩ := Prod.mk.injEq .. ▸ Option.some.inj hreq
    rw [← h1]; exact hI
  | EchoFrom r o payload =>
    simp only [Server.handle_request] at hreq
    obtain ⟨h1, _⟩ := Prod.mk.injEq .. ▸ Option.some.inj hreq
    rw [← h1]; exact hI
  | CreateRoom data =>
    simp only [Server.handle_request, Server.create_room] at hreq
    cases hnext : next_id s.last_room_id s.rooms with
    | none => simp [hnext] at hreq
    | some rid =>
      simp only [hnext] at hreq
      obtain ⟨hocc, _⟩ := nextIdGo_some hnext
      have hfree : mlookup s.rooms rid = none := by
        cases hm : mlookup s.rooms rid with
        | none => rfl
        | some v => rw [hm] at hocc; simp at hocc
      cases hu : mlookup s.users u with
      | none =>
        simp only [hu, Option.map_some'] at hreq
        obtain ⟨h1, _⟩ := Prod.mk.injEq .. ▸ Option.some.inj hreq
        rw [← h1]; exact hI
      | some user =>
        obtain ⟨uid, st0⟩ := user
        have hid : uid = u := hI.userId hu
        subst hid
        simp only [hu] at hreq
        cases st0 with
        | Nowhere =>
          simp only [User.try_create_room, User.expect_nowhere,
            Option.map_some'] at hreq
          obtain ⟨h1, _⟩ := Prod.mk.injEq .. ▸ Option.some.inj hreq
          rw [← h1]
          exact Inv_create s hI uid hu hfree data
        | RoomOwner r' =>
          simp only [User.try_create_room, User.expect_nowhere,
            Option.map_some'] at hreq
          obtain ⟨h1, _⟩ := Prod.mk.injEq .. ▸ Option.some.inj hreq
          rw [← h1]; exact hI
        | InRoom r' =>
          simp only [User.try_create_room, User.expect_nowhere,
            Option.map_some'] at hreq
          obtain ⟨h1, _⟩ := Prod.mk.injEq .. ▸ Option.some.inj hreq
          rw [← h1]; exact hI
        | RequestedJoin r' =>
          simp only [User.try_create_room, User.expect_nowhere,
            Option.map_some'] at hreq
          obtain ⟨h1, _⟩ := Prod.mk.injEq .. ▸ Option.some.inj hreq
          rw [← h1]; exact hI
  | AskJoinRoom r msg =>
    simp only [Server.handle_request, Server.ask_join] at hreq
    cases hu : mlookup s.users u with
    | none =>
      simp only [hu] at hreq
      obtain ⟨h1, _⟩ := Prod.mk.injEq .. ▸ Option.some.inj hreq
      rw [← h1]; exact hI
    | some user =>
      obtain ⟨uid, st0⟩ := user
      have hid : uid = u := hI.userId hu
      subst hid
      simp only [hu] at hreq
      cases hr : mlookup s.rooms r with
      | none =>
        simp only [hr] at hreq
        obtain ⟨h1, _⟩ := Prod.mk.injEq .. ▸ Option.some.inj hreq
        rw [← h1]; exact hI
      | some room =>
        simp only [hr] at hreq
        cases st0 with
        | Nowhere =>
          simp only [User.try_join_room, User.expect_nowhere] at hreq
          obtain ⟨h1, _⟩ := Prod.mk.injEq .. ▸ Option.some.inj hreq
          rw [← h1]
          have h := Inv_ask s hI uid hu hr
          rw [hI.roomId hr] at h ⊢
          exact h
        | RoomOwner r' =>
          simp only [User.try_join_room, User.expect_nowhere] at hreq
          obtain ⟨h1, _⟩ := Prod.mk.injEq .. ▸ Option.some.inj hreq
          rw [← h1]; exact hI
        | InRoom r' =>
          simp only [User.try_join_room, User.expect_nowhere] at hreq
          obtain ⟨h1, _⟩ := Prod.mk.injEq .. ▸ Option.some.inj hreq
          rw [← h1]; exact hI
        | RequestedJoin r' =>
          simp only [User.try_join_room, User.expect_nowhere] at hreq
          obtain ⟨h1, _⟩ := Prod.mk.injEq .. ▸ Option.some.inj hreq
          rw [← h1]; exact hI
  | AcceptJoinRoom r o =>
    simp only [Server.handle_request, Server.accept_join] at hreq
    cases ho : mlookup s.users o with
    | none =>
      simp only [ho] at hreq
      obtain ⟨h1, _⟩ := Prod.mk.injEq .. ▸ Option.some.inj hreq
      rw [← h1]; exact hI
    | some other =>
      obtain ⟨oid, st0⟩ := other
      have hid : oid = o := hI.userId ho
      subst hid
      simp only [ho] at hreq
      cases hr : mlookup s.rooms r with
      | none =>
        simp only [hr] at hreq
        obtain ⟨h1, _⟩ := Prod.mk.injEq .. ▸ Option.some.inj hreq
        rw [← h1]; exact hI
      | some room =>
        simp only [hr] at hreq
        cases hexo : room.expect_owner u with
        | error e' =>
          simp only [hexo] at hreq
          obtain ⟨h1, _⟩ := Prod.mk.injEq .. ▸ Option.some.inj hreq
          rw [← h1]; exact hI
        | ok v =>
          simp only [hexo] at hreq
          cases hi : index_of room.join_requests oid with
          | none =>
            simp only [Room.accept_join_request, Room.cancel_join_request,
              hi] at hreq
            obtain ⟨h1, _⟩ := Prod.mk.injEq .. ▸ Option.some.inj hreq
            rw [← h1]; exact hI
          | some i =>
            have hmem : oid ∈ room.join_requests := mem_of_index_of_some hi
            have hcanon := hI.req_in hr hmem
            have hst0 : st0 = .RequestedJoin r := by
              rw [ho] at hcanon
              cases Option.some.inj hcanon
              rfl
            subst hst0
            simp only [Room.accept_join_request, Room.cancel_join_request,
              hi] at hreq
            obtain ⟨h1, _⟩ := Prod.mk.injEq .. ▸ Option.some.inj hreq
            rw [← h1]
            have h := Inv_accept s hI oid ho hr hi
            rw [hI.roomId hr] at h ⊢
            exact h
  | RejectJoinRoom r o reason =>
    simp only [Server.handle_request, Server.reject_join] at hreq
    cases ho : mlookup s.users o with
    | none =>
      simp only [ho] at hreq
      obtain ⟨h1, _⟩ := Prod.mk.injEq .. ▸ Option.some.inj hreq
      rw [← h1]; exact hI
    | some other =>
      obtain ⟨oid, st0⟩ := other
      have hid : oid = o := hI.userId ho
      subst hid
      simp only [ho] at hreq
      cases hr : mlookup s.rooms r with
      | none =>
        simp only [hr] at hreq
        obtain ⟨h1, _⟩ := Prod.mk.injEq .. ▸ Option.some.inj hreq
        rw [← h1]; exact hI
      | some room =>
        simp only [hr] at hreq
        cases hexo : room.expect_owner u with
        | error e' =>
          simp only [hexo] at hreq
          obtain ⟨h1, _⟩ := Prod.mk.injEq .. ▸ Option.some.inj hreq
          rw [← h1]; exact hI
        | ok v =>
          simp only [hexo] at hreq
          cases hi : index_of room.join_requests oid with
          | none =>
            simp only [Room.cancel_join_request, hi] at hreq
            obtain ⟨h1, _⟩ := Prod.mk.injEq .. ▸ Option.some.inj hreq
            rw [← h1]; exact hI
          | some i =>
            have hmem : oid ∈ room.join_requests := mem_of_index_of_some hi
            have hcanon := hI.req_in hr hmem
            have hst0 : st0 = .RequestedJoin r := by
              rw [ho] at hcanon
              cases Option.some.inj hcanon
              rfl
            subst hst0
            obtain ⟨hilen, _⟩ := index_of_spec hi
            simp only [Room.cancel_join_request, hi] at hreq
            obtain ⟨h1, _⟩ := Prod.mk.injEq .. ▸ Option.some.inj hreq
            rw [← h1]
            apply Inv_drop s hI oid hr ho (Or.inr rfl)
            · exact nodup_keys_mupdate _ _ _ hI.usersNodup
            · exact nodup_keys_mupdate _ _ _ hI.roomsNodup
            · right
              exact mlookup_mupdate_self _ _ ho
            · intro x hxu
              exact mlookup_mupdate_ne _ _ (fun e => hxu e.symm)
            · intro x
              by_cases hrx : r = x
              · subst hrx
                rw [if_pos rfl]
                exact mlookup_mupdate_self _ _ hr
              · rw [if_neg hrx]
                exact mlookup_mupdate_ne _ _ hrx
            · rfl
            · rfl
            · intro x hx
              refine ⟨hx, ?_⟩
              intro e
              subst e
              have h := hI.mem_in hr hx
              rw [ho] at h
              cases Option.some.inj h
            · intro x hx _
              exact hx
            · intro x hx
              have h := (mem_swapRemove_iff (hI.reqNodup hr) hi x).mp hx
              exact ⟨h.2, h.1⟩
            · intro x hx hxu
              exact (mem_swapRemove_iff (hI.reqNodup hr) hi x).mpr ⟨hxu, hx⟩
            · simpa using hI.memNodup hr
            · exact nodup_swapRemove (hI.reqNodup hr) hilen
  | LeaveRoom r =>
    simp only [Server.handle_request, Server.leave_room] at hreq
    cases hu : mlookup s.users u with
    | none =>
      simp only [hu] at hreq
      obtain ⟨h1, _⟩ := Prod.mk.injEq .. ▸ Option.some.inj hreq
      rw [← h1]; exact hI
    | some user =>
      obtain ⟨uid, st0⟩ := user
      have hid : uid = u := hI.userId hu
      subst hid
      simp only [hu] at hreq
      cases hr : mlookup s.rooms r with
      | none =>
        simp only [hr] at hreq
        obtain ⟨h1, _⟩ := Prod.mk.injEq .. ▸ Option.some.inj hreq
        rw [← h1]; exact hI
      | some room =>
        simp only [hr] at hreq
        by_cases howner : room.owner_id = uid
        · rw [if_pos howner] at hreq
          have hnotocc : uid ∉ room.members ++ room.join_requests :=
            howner ▸ owner_not_occupant hI hr hr
          obtain ⟨us, hclose, hkeys, hchar⟩ :=
            close_room_ok s r room hr (occupant_isSome hI hr)
          rw [hclose] at hreq
          obtain ⟨h1, _⟩ := Prod.mk.injEq .. ▸ Option.some.inj hreq
          rw [← h1]
          apply Inv_after_close s hI hr
          · show (us.map Prod.fst).Nodup
            rw [hkeys]
            exact hI.usersNodup
          · rfl
          · right
            have h := hchar room.owner_id
            rw [if_pos (Or.inr rfl)] at h
            rw [h, howner, hu]
            have hst0 : st0 = .RoomOwner r := by
              have hcanon := hI.owner_in hr
              rw [howner, hu] at hcanon
              cases Option.some.inj hcanon
              rfl
            subst hst0
            rfl
          · intro x hxo
            have h := hchar x
            by_cases hxl : x ∈ room.members ++ room.join_requests
            · rw [if_pos (Or.inl hxl)] at h
              rw [h, if_pos hxl]
            · rw [if_neg (by
                rintro (hh1 | hh2)
                · exact hxl hh1
                · exact hxo hh2)] at h
              rw [h, if_neg hxl]
        · rw [if_neg howner] at hreq
          cases st0 with
          | RoomOwner r' =>
            simp only [User.leave_room] at hreq
            rw [mupdate_self _ hu, mupdate_self _ hr] at hreq
            obtain ⟨h1, _⟩ := Prod.mk.injEq .. ▸ Option.some.inj hreq
            have hX : Inv (⟨s.max_connections, s.last_user_id, s.users,
                s.last_room_id, s.rooms⟩ : Server) := hI
            exact h1 ▸ hX
          | Nowhere =>
            simp only [User.leave_room] at hreq
            rw [mupdate_self _ hu, mupdate_self _ hr] at hreq
            obtain ⟨h1, _⟩ := Prod.mk.injEq .. ▸ Option.some.inj hreq
            have hX : Inv (⟨s.max_connections, s.last_user_id, s.users,
                s.last_room_id, s.rooms⟩ : Server) := hI
            exact h1 ▸ hX
          | InRoom rid =>
            by_cases hrid : rid = room.id
            · have hrr : rid = r := hrid.trans (hI.roomId hr)
              subst hrr
              have hmem : uid ∈ room.members := by
                obtain ⟨room2, hroom2, hm2⟩ := hI.mem_out hu rfl
                rw [hr] at hroom2
                cases Option.some.inj hroom2
                exact hm2
              obtain ⟨i, hi⟩ :=
                Option.isSome_iff_exists.mp (index_of_isSome_of_mem hmem)
              obtain ⟨hilen, _⟩ := index_of_spec hi
              have hou' : ¬ (uid = room.owner_id) := fun e => howner e.symm
              simp only [User.leave_room, if_pos hrid, Room.remove_user,
                if_neg hou', hi] at hreq
              obtain ⟨h1, _⟩ := Prod.mk.injEq .. ▸ Option.some.inj hreq
              rw [← h1]
              apply Inv_drop s hI uid hr hu (Or.inl rfl)
              · exact nodup_keys_mupdate _ _ _ hI.usersNodup
              · exact nodup_keys_mupdate _ _ _ hI.roomsNodup
              · right
                exact mlookup_mupdate_self _ _ hu
              · intro x hxu
                exact mlookup_mupdate_ne _ _ (fun e => hxu e.symm)
              · intro x
                by_cases hrx : rid = x
                · subst hrx
                  rw [if_pos rfl]
                  exact mlookup_mupdate_self _ _ hr
                · rw [if_neg hrx]
                  exact mlookup_mupdate_ne _ _ hrx
              · rfl
              · rfl
              · intro x hx
                have h := (mem_swapRemove_iff (hI.memNodup hr) hi x).mp hx
                exact ⟨h.2, h.1⟩
              · intro x hx hxu
                exact (mem_swapRemove_iff (hI.memNodup hr) hi x).mpr ⟨hxu, hx⟩
              · intro x hx
                refine ⟨hx, ?_⟩
                intro e
                subst e
                have h := hI.req_in hr hx
                rw [hu] at h
                cases Option.some.inj h
              · intro x hx _
                exact hx
              · exact nodup_swapRemove (hI.memNodup hr) hilen
              · simpa using hI.reqNodup hr
            · simp only [User.leave_room, if_neg hrid] at hreq
              rw [mupdate_self _ hu, mupdate_self _ hr] at hreq
              obtain ⟨h1, _⟩ := Prod.mk.injEq .. ▸ Option.some.inj hreq
              have hX : Inv (⟨s.max_connections, s.last_user_id, s.users,
                  s.last_room_id, s.rooms⟩ : Server) := hI
              exact h1 ▸ hX
          | RequestedJoin rid =>
            by_cases hrid : rid = room.id
            · have hrr : rid = r := hrid.trans (hI.roomId hr)
              subst hrr
              have hmem : uid ∈ room.join_requests := by
                obtain ⟨room2, hroom2, hm2⟩ := hI.req_out hu rfl
                rw [hr] at hroom2
                cases Option.some.inj hroom2
                exact hm2
              obtain ⟨i, hi⟩ :=
                Option.isSome_iff_exists.mp (index_of_isSome_of_mem hmem)
              obtain ⟨hilen, _⟩ := index_of_spec hi
              simp only [User.leave_room, if_pos hrid, Room.cancel_join_request,
                hi] at hreq
              obtain ⟨h1, _⟩ := Prod.mk.injEq .. ▸ Option.some.inj hreq
              rw [← h1]
              apply Inv_drop s hI uid hr hu (Or.inr rfl)
              · exact nodup_keys_mupdate _ _ _ hI.usersNodup
              · exact nodup_keys_mupdate _ _ _ hI.roomsNodup
              · right
                exact mlookup_mupdate_self _ _ hu
              · intro x hxu
                exact mlookup_mupdate_ne _ _ (fun e => hxu e.symm)
              · intro x
                by_cases hrx : rid = x
                · subst hrx
                  rw [if_pos rfl]
                  exact mlookup_mupdate_self _ _ hr
                · rw [if_neg hrx]
                  exact mlookup_mupdate_ne _ _ hrx
              · rfl
              · rfl
              · intro x hx
                refine ⟨hx, ?_⟩
                intro e
                subst e
                have h := hI.mem_in hr hx
                rw [hu] at h
                cases Option.some.inj h
              · intro x hx _
                exact hx
              · intro x hx
                have h := (mem_swapRemove_iff (hI.reqNodup hr) hi x).mp hx
                exact ⟨h.2, h.1⟩
              · intro x hx hxu
                exact (mem_swapRemove_iff (hI.reqNodup hr) hi x).mpr ⟨hxu, hx⟩
              · simpa using hI.memNodup hr
              · exact nodup_swapRemove (hI.reqNodup hr) hilen
            · simp only [User.leave_room, if_neg hrid] at hreq
              rw [mupdate_self _ hu, mupdate_self _ hr] at hreq
              obtain ⟨h1, _⟩ := Prod.mk.injEq .. ▸ Option.some.inj hreq
              have hX : Inv (⟨s.max_connections, s.last_user_id, s.users,
                  s.last_room_id, s.rooms⟩ : Server) := hI
              exact h1 ▸ hX

theorem Inv_reachable (s : Server) (h : Reachable s) : Inv s := by
  induction h with
  | init mc => exact Inv_init mc
  | step _ hstep ih =>
    cases hstep with
    | add a b c => exact Inv_add _ _ _ ih c
    | remove a => exact Inv_remove _ _ ih
    | handle a b c d e => exact Inv_handle _ _ _ _ _ ih e

/-- `u` is a member of room `r` in `s`. -/
def memberOf (s : Server) (u : UserID) (r : RoomID) : Prop :=
  ∃ room, mlookup s.rooms r = some room ∧ u ∈ room.members

/-- `u` owns room `r` in `s`. -/
def ownsRoom (s : Server) (u : UserID) (r : RoomID) : Prop :=
  ∃ room, mlookup s.rooms r = some room ∧ room.owner_id = u

/-- `u` has a pending join request in room `r` in `s`. -/
def requestedOf (s : Server) (u : UserID) (r : RoomID) : Prop :=
  ∃ room, mlookup s.rooms r = some room ∧ u ∈ room.join_requests

instance memberOf.dec (s : Server) (u : UserID) (r : RoomID) :
    Decidable (memberOf s u r) :=
  match h : mlookup s.rooms r with
  | some room => decidable_of_iff (u ∈ room.members) (by
      constructor
      · intro hm; exact ⟨room, h, hm⟩
      · rintro ⟨room', h', hm⟩
        rw [h] at h'
        cases Option.some.inj h'
        exact hm)
  | none => isFalse (by
      rintro ⟨room, h', _⟩
      rw [h] at h'
      cases h')

instance ownsRoom.dec (s : Server) (u : UserID) (r : RoomID) :
    Decidable (ownsRoom s u r) :=
  match h : mlookup s.rooms r with
  | some room => decidable_of_iff (room.owner_id = u) (by
      constructor
      · intro hm; exact ⟨room, h, hm⟩
      · rintro ⟨room', h', hm⟩
        rw [h] at h'
        cases Option.some.inj h'
        exact hm)
  | none => isFalse (by
      rintro ⟨room, h', _⟩
      rw [h] at h'
      cases h')

instance requestedOf.dec (s : Server) (u : UserID) (r : RoomID) :
    Decidable (requestedOf s u r) :=
  match h : mlookup s.rooms r with
  | some room => decidable_of_iff (u ∈ room.join_requests) (by
      constructor
      · intro hm; exact ⟨room, h, hm⟩
      · rintro ⟨room', h', hm⟩
        rw [h] at h'
        cases Option.some.inj h'
        exact hm)
  | none => isFalse (by
      rintro ⟨room, h', _⟩
      rw [h] at h'
      cases h')

/-- C5: in every server state reachable from the initial state by
`add_user`, `remove_user` and `handle_request`, a user's state is
`InRoom(r)` iff the user appears in `rooms[r].members`, `RoomOwner(r)` iff
`rooms[r].owner_id` is the user, and `RequestedJoin(r)` iff the user
appears in `rooms[r].join_requests`. -/
theorem C5_state_consistency (s : Server) (hs : Reachable s) (u : UserID)
    (usr : User) (hu : mlookup s.users u = some usr) (r : RoomID) :
    (usr.state = .InRoom r ↔ memberOf s u r) ∧
    (usr.state = .RoomOwner r ↔ ownsRoom s u r) ∧
    (usr.state = .RequestedJoin r ↔ requestedOf s u r) := by
  have hI := Inv_reachable s hs
  refine ⟨⟨?_, ?_⟩, ⟨?_, ?_⟩, ⟨?_, ?_⟩⟩
  · intro hst
    exact hI.mem_out hu hst
  · rintro ⟨room, hr, hm⟩
    have h := hI.mem_in hr hm
    rw [hu] at h
    cases Option.some.inj h
    rfl
  · intro hst
    exact hI.owner_out hu hst
  · rintro ⟨room, hr, ho⟩
    have h := hI.owner_in hr
    rw [ho, hu] at h
    cases Option.some.inj h
    rfl
  · intro hst
    exact hI.req_out hu hst
  · rintro ⟨room, hr, hm⟩
    have h := hI.req_in hr hm
    rw [hu] at h
    cases Option.some.inj h
    rfl

def s5 : Server := ⟨1, 1, [(1, ⟨1, .Nowhere⟩)], 0, []⟩

/-- Witness for C5: the reachable state after one `add_user` on a fresh
1-connection server; its only user, in state `Nowhere`, is in no room
relation for room 1. -/
theorem C5_state_consistency_witness :
    ((User.mk 1 .Nowhere).state = .InRoom 1 ↔ memberOf s5 1 1) ∧
    ((User.mk 1 .Nowhere).state = .RoomOwner 1 ↔ ownsRoom s5 1 1) ∧
    ((User.mk 1 .Nowhere).state = .RequestedJoin 1 ↔ requestedOf s5 1 1) :=
  C5_state_consistency s5
    (Reachable.step (Reachable.init 1) (Step.add (Server.new 1) s5 (some 1)
      (by decide))) 1 ⟨1, .Nowhere⟩ (by decide) 1

end Incognita
